import Mathlib

/-!
Verification of the SyncShop audit engine against its design specification.

This file gives a shallow embedding of the reconciliation engine
(`src/audit_engine.py`), the batched write-back dispatcher
(`src/shopify_service.py`, `batch_process_mismatches`) and the creation
planner grouping (`src/app.py`, `process_creations`), and proves the
spec-level properties about them.

Modelling conventions:
* pandas numeric cells after `pd.to_numeric(..., errors='coerce')` are
  `Option ℚ` (`none` = NaN / absent).  Comparison helpers reproduce the
  IEEE/NumPy behaviour that every comparison with NaN except `!=` is
  False and `!=` is True.
* text cells are `Option String` (`none` = NaN); Python `str(x)` renders
  a NaN cell as `"nan"` (`rawStr`).
* Python string manipulation is re-implemented over `List Char`
  (`lc`, `trimChars`, `splitComma`, ...) so that everything reduces.
-/

namespace Audit

/-! ### Text primitives mirroring Python string operations -/

/-- Python `str.lower()` (ASCII). -/
def lc (l : List Char) : List Char := l.map Char.toLower

def isSpace (c : Char) : Bool := c.isWhitespace

/-- Python `str.strip()`: whitespace removed from both ends. -/
def trimChars (l : List Char) : List Char :=
  ((l.dropWhile isSpace).reverse.dropWhile isSpace).reverse

/-- Python `s.split(',')`.  Splitting the empty string yields `[""]`. -/
def splitComma : List Char → List (List Char)
  | [] => [[]]
  | c :: rest =>
    if c = ',' then [] :: splitComma rest
    else
      match splitComma rest with
      | [] => [[c]]
      | g :: gs => (c :: g) :: gs

/-- Python `str(x)` applied to a possibly-missing (NaN) text cell. -/
def rawStr : Option String → String
  | none => "nan"
  | some s => s

/-! ### Numeric cells and NaN comparison semantics -/

/-- `a != b` on floats where `none` is NaN: NaN compares unequal to
everything (including NaN). -/
def floatNe : Option ℚ → Option ℚ → Bool
  | some a, some b => decide (a ≠ b)
  | _, _ => true

/-- `a == b` on floats where `none` is NaN: NaN compares equal to nothing. -/
def floatEq : Option ℚ → Option ℚ → Bool
  | some a, some b => decide (a = b)
  | _, _ => false

/-! ### The matched partition of the outer join

`check_mismatches` (audit_engine.py) first normalizes both tables, outer
joins them on the trimmed lowercased SKU and then walks the matched rows.
`MatchedRow` carries exactly the fields of a matched row that the rule
engine reads; prices are post-coercion numeric cells.  The remote
identifier fields (`variant_id`, `product_id`, ...) copied verbatim into
every mismatch record are not modelled here; the dispatcher model keys
rows by their dataframe index instead. -/

structure MatchedRow where
  priceCsv : Option ℚ
  compareAtPriceCsv : Option ℚ
  priceShopify : Option ℚ
  compareAtPriceShopify : Option ℚ
  /-- raw `tags` cell on the Shopify side (`none` = NaN). -/
  tagsShopify : Option String
  /-- raw `tags` cell on the CSV side (`none` = NaN). -/
  tagsCsv : Option String
  /-- raw `templateSuffix` cell on the Shopify side. -/
  templateSuffix : Option String
  /-- `handle` column of the CSV side (`none` = NaN cell). -/
  handleCsv : Option String
  /-- `descriptionHtml` cell of the Shopify side. -/
  descriptionHtml : Option String
  deriving DecidableEq, Repr

/-- Discrepancy kinds (the `field` strings of audit_engine.py). -/
inductive Kind where
  | price
  | compare_at_price
  | sticky_sale
  | incorrect_template_suffix
  | missing_oversize_tag
  | clearance_price_mismatch
  | missing_clearance_tag
  | h1_in_description
  | stale_clearance_tag
  deriving DecidableEq, Repr

/-- One discrepancy record.  Of the display payload only the
`fixed_descriptionHtml` attachment is modelled (the only payload field a
spec property talks about). -/
structure Mismatch where
  kind : Kind
  fixedDescriptionHtml : Option String
  deriving DecidableEq, Repr

/-! ### Tag parsing (audit_engine.py lines 125-131) -/

/-- Lines 128-129: split the stringified tag cell on commas, strip and
lowercase each piece; an empty or `"nan"` raw string yields no tags. -/
def parseTags (raw : String) : List (List Char) :=
  if raw ≠ "" ∧ raw ≠ "nan" then (splitComma raw.data).map (fun t => lc (trimChars t)) else []

def shopTags (r : MatchedRow) : List (List Char) := parseTags (rawStr r.tagsShopify)

def csvTags (r : MatchedRow) : List (List Char) := parseTags (rawStr r.tagsCsv)

/-- Line 131. -/
def isOversizeCore (st ct : List (List Char)) : Bool :=
  decide ("oversize".data ∈ st) || decide ("oversize".data ∈ ct) ||
  decide ("overweight".data ∈ st) || decide ("overweight".data ∈ ct)

def isOversize (r : MatchedRow) : Bool := isOversizeCore (shopTags r) (csvTags r)

/-! ### Template normalization and expectation (lines 133-161) -/

/-- Lines 134-137: the actual template, lowercased, with NaN, `""`,
`"none"`, `"nan"` and `"null"` all normalized to the default marker. -/
def normTemplate (t : Option String) : List Char :=
  match t with
  | none => "default template".data
  | some s =>
    let l := lc s.data
    if l = "none".data ∨ l = "nan".data ∨ l = "null".data ∨ l = [] then
      "default template".data
    else l

/-- Lines 143-150: a real discount exists when list price > price, taking
the CSV pair when both CSV values are present, otherwise the Shopify
pair when both of those are present. -/
def realDiscountCore (pc cc ps cs : Option ℚ) : Bool :=
  match cc, pc with
  | some c, some p => decide (c > p)
  | _, _ =>
    match cs, ps with
    | some c, some p => decide (c > p)
    | _, _ => false

def realDiscount (r : MatchedRow) : Bool :=
  realDiscountCore r.priceCsv r.compareAtPriceCsv r.priceShopify r.compareAtPriceShopify

/-- Lines 139-161: the expected template as a function of the feed type,
the two tag sets and the four price cells. -/
def expectedTemplateCore (clr : Bool) (st ct : List (List Char))
    (pc cc ps cs : Option ℚ) : List Char :=
  let base :=
    if isOversizeCore st ct then "heavy-products".data
    else if decide ("clearance".data ∈ st) && realDiscountCore pc cc ps cs then "clearance".data
    else "default template".data
  if clr = true ∧ base = "default template".data ∧ realDiscountCore pc cc ps cs = true ∧
      isOversizeCore st ct = false then
    "clearance".data
  else base

def expectedTemplate (clr : Bool) (r : MatchedRow) : List Char :=
  expectedTemplateCore clr (shopTags r) (csvTags r)
    r.priceCsv r.compareAtPriceCsv r.priceShopify r.compareAtPriceShopify

/-! ### The H1 rewrite (lines 186-198)

`re.sub(r'<h1(\b[^>]*)>', r'<h2\1>', ..., re.IGNORECASE)` followed by
`re.sub(r'</h1>', r'</h2>', ..., re.IGNORECASE)`, re-implemented as
left-to-right non-overlapping scanners over `List Char`. -/

def isWordChar (c : Char) : Bool := c.isAlphanum || c = '_'

/-- The `\b` after `<h1`: the following character (if any) must not be a
word character; an empty remainder cannot complete the `[^>]*>` part
anyway, so it fails the match. -/
def boundaryOk (rest : List Char) : Bool :=
  match rest.head? with
  | some d => !isWordChar d
  | none => false

/-- Match `<h1\b[^>]*>` (case-insensitive on the `h`) at the head of the
list: `<h1`, then a word boundary (the next character is not a word
character), then everything up to the first `>`.  Returns the attribute
text (group 1) and the remainder after the `>`. -/
def openMatch (l : List Char) : Option (List Char × List Char) :=
  match l with
  | a :: b :: c :: rest =>
    if a = '<' ∧ (b = 'h' ∨ b = 'H') ∧ c = '1' ∧ boundaryOk rest = true then
      if (rest.takeWhile (fun x => x ≠ '>')).length < rest.length then
        some (rest.takeWhile (fun x => x ≠ '>'),
          rest.drop ((rest.takeWhile (fun x => x ≠ '>')).length + 1))
      else none
    else none
  | _ => none

/-- Match `</h1>` (case-insensitive) at the head of the list. -/
def closeMatch (l : List Char) : Option (List Char) :=
  match l with
  | a :: b :: c :: d :: e :: rest =>
    if a = '<' ∧ b = '/' ∧ (c = 'h' ∨ c = 'H') ∧ d = '1' ∧ e = '>' then some rest else none
  | _ => none

/-- Fuel-based runner for the opening-tag substitution; the fuel only
needs to dominate the length of the input (each step consumes at least
one character). -/
def fixOpenF : Nat → List Char → List Char
  | 0, l => l
  | fuel + 1, l =>
    match openMatch l with
    | some (attrs, rest) => '<' :: 'h' :: '2' :: (attrs ++ '>' :: fixOpenF fuel rest)
    | none =>
      match l with
      | [] => []
      | c :: cs => c :: fixOpenF fuel cs

/-- `re.sub(r'<h1(\b[^>]*)>', r'<h2\1>', l, flags=re.IGNORECASE)`. -/
def fixOpen (l : List Char) : List Char := fixOpenF l.length l

/-- Fuel-based runner for the closing-tag substitution. -/
def fixCloseF : Nat → List Char → List Char
  | 0, l => l
  | fuel + 1, l =>
    match closeMatch l with
    | some rest => '<' :: '/' :: 'h' :: '2' :: '>' :: fixCloseF fuel rest
    | none =>
      match l with
      | [] => []
      | c :: cs => c :: fixCloseF fuel cs

/-- `re.sub(r'</h1>', r'</h2>', l, flags=re.IGNORECASE)`. -/
def fixClose (l : List Char) : List Char := fixCloseF l.length l

/-- `re.search(r'<h1\b[^>]*>', l, re.IGNORECASE)` succeeds.  -/
def hasOpenMatch : List Char → Bool
  | [] => false
  | c :: cs => (openMatch (c :: cs)).isSome || hasOpenMatch cs

/-- The corrected HTML attached to an `h1_in_description` record
(lines 192-196). -/
def fixDescriptionHtml (s : String) : String := ⟨fixClose (fixOpen s.data)⟩

/-! ### The per-row rule checks (lines 106-198) -/

/-- Rule 1, lines 106-108. -/
def priceCheck (r : MatchedRow) : List Mismatch :=
  match r.priceCsv, r.priceShopify with
  | some a, some b => if a ≠ b then [⟨Kind.price, none⟩] else []
  | _, _ => []

/-- Rule 1.5, lines 110-117.  In the non-clearance branch the comparison
`compareAtPrice_shopify != price_shopify` is NaN-aware: a present
compare-at price also counts as differing from an absent price. -/
def promoCheck (clr : Bool) (r : MatchedRow) : List Mismatch :=
  if clr then
    match r.compareAtPriceCsv, r.compareAtPriceShopify with
    | some a, some b => if a ≠ b then [⟨Kind.compare_at_price, none⟩] else []
    | _, _ => []
  else
    match r.compareAtPriceShopify with
    | some c => if floatNe (some c) r.priceShopify then [⟨Kind.sticky_sale, none⟩] else []
    | none => []

/-- Lines 163-167. -/
def templateCheck (clr : Bool) (r : MatchedRow) : List Mismatch :=
  if normTemplate r.templateSuffix ≠ expectedTemplate clr r then
    [⟨Kind.incorrect_template_suffix, none⟩]
  else []

/-- Lines 169-171. -/
def oversizeCheck (r : MatchedRow) : List Mismatch :=
  if isOversize r = true ∧ "oversize".data ∉ shopTags r ∧ "overweight".data ∉ shopTags r then
    [⟨Kind.missing_oversize_tag, none⟩]
  else []

/-- Lines 173-184.  `parentDiscount` is this row's entry of the
`parent_discounts` group signal; `none` models the NaN that pandas
assigns to rows whose `handle_csv` is NaN (NaN is truthy, so
`not parent_discounts.loc[idx]` is False and the check is skipped). -/
def clearanceCheck (clr : Bool) (parentDiscount : Option Bool) (r : MatchedRow) : List Mismatch :=
  if clr then
    if floatEq r.priceCsv r.compareAtPriceCsv then
      match parentDiscount with
      | some b =>
        if b = false ∧ ("clearance".data ∈ shopTags r ∨ normTemplate r.templateSuffix = "clearance".data) then
          [⟨Kind.clearance_price_mismatch, none⟩]
        else []
      | none => []
    else
      if "clearance".data ∉ shopTags r then [⟨Kind.missing_clearance_tag, none⟩] else []
  else []

/-- Lines 186-198. -/
def h1Check (r : MatchedRow) : List Mismatch :=
  match r.descriptionHtml with
  | some d =>
    if hasOpenMatch d.data then [⟨Kind.h1_in_description, some (fixDescriptionHtml d)⟩] else []
  | none => []

/-- The full per-row rule set, in source order. -/
def rowMismatches (clr : Bool) (parentDiscount : Option Bool) (r : MatchedRow) : List Mismatch :=
  priceCheck r ++ promoCheck clr r ++ templateCheck clr r ++ oversizeCheck r ++
    clearanceCheck clr parentDiscount r ++ h1Check r

/-! ### The group discount signal (lines 71-77) -/

/-- `has_discount_csv`, line 74. -/
def hasDiscountCsv (r : MatchedRow) : Bool :=
  match r.compareAtPriceCsv, r.priceCsv with
  | some c, some p => decide (p < c)
  | _, _ => false

/-- `transform('any')` over a handle group, line 75. -/
def groupDiscount (rows : List MatchedRow) (h : String) : Bool :=
  rows.any (fun r => decide (r.handleCsv = some h) && hasDiscountCsv r)

/-- This row's entry of `parent_discounts`: rows whose handle is NaN fall
outside every group and receive NaN (`none`). -/
def parentDiscountOf (rows : List MatchedRow) (r : MatchedRow) : Option Bool :=
  r.handleCsv.map (fun h => groupDiscount rows h)

/-- The matched-partition pass of `check_mismatches`: every matched row
contributes its rule-check records, in row order. -/
def checkMismatches (clr : Bool) (rows : List MatchedRow) : List Mismatch :=
  rows.flatMap (fun r => rowMismatches clr (parentDiscountOf rows r) r)

def oversizeDiscountRow : MatchedRow :=
  { priceCsv := some 10
    compareAtPriceCsv := some 20
    priceShopify := some 10
    compareAtPriceShopify := some 20
    tagsShopify := some "oversize"
    tagsCsv := some ""
    templateSuffix := some "heavy-products"
    handleCsv := some "hx"
    descriptionHtml := none }

def priceDiffRow : MatchedRow :=
  { priceCsv := some 10
    compareAtPriceCsv := none
    priceShopify := some 12
    compareAtPriceShopify := none
    tagsShopify := none
    tagsCsv := none
    templateSuffix := none
    handleCsv := some "hy"
    descriptionHtml := none }

/-- A clearance-feed row with an absent grouping key: source price equals
source list price, no sibling discount exists, and the platform carries
the clearance tag. -/
def blankHandleRow : MatchedRow :=
  { priceCsv := some 10
    compareAtPriceCsv := some 10
    priceShopify := some 10
    compareAtPriceShopify := some 10
    tagsShopify := some "clearance"
    tagsCsv := some ""
    templateSuffix := some "clearance"
    handleCsv := none
    descriptionHtml := none }

/-- The same row with its grouping key present: the amended C3 applies
and the discrepancy is emitted. -/
def keyedHandleRow : MatchedRow :=
  { priceCsv := some 10
    compareAtPriceCsv := some 10
    priceShopify := some 10
    compareAtPriceShopify := some 10
    tagsShopify := some "clearance"
    tagsCsv := some ""
    templateSuffix := some "clearance"
    handleCsv := some "widget-a"
    descriptionHtml := none }

/-! ### C6: records for rows missing in Shopify (audit_engine.py lines 204-223)

A record is the dict built for one source-only row: one entry per source
column (minus the internal `sku_lower`), in column order, each holding
the carried source cell (`none` = NaN).  The merge-suffix resolution of
lines 210-213 always recovers exactly the source cell, so the record is
taken as input here; what is modelled is the fallback logic applied to
it (lines 215-221). -/

/-- One row-record: association list from column name to cell. -/
abbrev RowRecord := List (String × Option String)

/-- Python `k in record` / `record[k]`: `some v` when the key is present
with cell `v` (itself `none` when the cell is NaN). -/
def getCell : RowRecord → String → Option (Option String)
  | [], _ => none
  | p :: rest, k => if p.1 = k then some p.2 else getCell rest k

/-- Python `record.get(k, d)`. -/
def getCellD (rec : RowRecord) (k : String) (d : Option String) : Option String :=
  match getCell rec k with
  | some v => v
  | none => d

/-- Python `record[k] = v` for a key known to be present (both
assignments in the source are guarded by `if k in record`). -/
def setCell : RowRecord → String → Option String → RowRecord
  | [], _, _ => []
  | p :: rest, k, v => (if p.1 = k then (k, v) else p) :: setCell rest k v

/-- Line 216 / 220: `pd.isna(v) or str(v).strip() == ''`. -/
def isBlankCell : Option String → Bool
  | none => true
  | some s => trimChars s.data = []

/-- `record.get('sku', 'Unknown')` rendered by the f-string (line 221):
a NaN cell prints as `nan`. -/
def skuDisplay (rec : RowRecord) : String :=
  match getCell rec "sku" with
  | some v => rawStr v
  | none => "Unknown"

/-- Lines 215-217. -/
def applyTypeFallback (rec : RowRecord) : RowRecord :=
  match getCell rec "type" with
  | some v =>
    if isBlankCell v then
      setCell rec "type" (getCellD rec "product_type" (getCellD rec "category" (some "")))
    else rec
  | none => rec

/-- Lines 219-221. -/
def applyTitleFallback (rec : RowRecord) : RowRecord :=
  match getCell rec "title" with
  | some v =>
    if isBlankCell v then setCell rec "title" (some ("Product " ++ skuDisplay rec))
    else rec
  | none => rec

/-- The full record construction for one missing-in-Shopify row. -/
def buildMissingRecord (rec : RowRecord) : RowRecord :=
  applyTitleFallback (applyTypeFallback rec)

/-- A source-only row whose `type` and `product_type` are both blank
while `category` is not. -/
def blankTypeRecord : RowRecord :=
  [("sku", some "A1"), ("title", some "Widget"), ("type", none),
   ("product_type", none), ("category", some "Shoes")]

/-- A record exercising both fallbacks of the amended C6. -/
def blankTitleRecord : RowRecord :=
  [("sku", some "B2"), ("title", some " "), ("type", some ""),
   ("product_type", some "Boots"), ("category", some "Shoes")]

/-! ### C8: the H1 rewrite is structure-preserving

An HTML description is decomposed into segments: literal text, opening
level-1 heading tags `<h1 ...>`, and closing tags `</h1>`.  On such a
decomposition (with the natural well-formedness side conditions) the two
regex substitutions rewrite exactly the heading tags and keep every text
segment and every attribute list verbatim. -/

inductive HtmlSeg where
  | txt (s : List Char)
  | h1open (attrs : List Char)
  | h1close
  deriving DecidableEq, Repr

/-- The segment as it occurs in the input HTML. -/
def renderSeg : HtmlSeg → List Char
  | .txt s => s
  | .h1open attrs => '<' :: 'h' :: '1' :: (attrs ++ ['>'])
  | .h1close => '<' :: '/' :: 'h' :: '1' :: '>' :: []

def renderSegs (toks : List HtmlSeg) : List Char :=
  match toks with
  | [] => []
  | t :: ts => renderSeg t ++ renderSegs ts

/-- The segment after the opening-tag pass only. -/
def renderMidSeg : HtmlSeg → List Char
  | .txt s => s
  | .h1open attrs => '<' :: 'h' :: '2' :: (attrs ++ ['>'])
  | .h1close => '<' :: '/' :: 'h' :: '1' :: '>' :: []

def renderMid (toks : List HtmlSeg) : List Char :=
  match toks with
  | [] => []
  | t :: ts => renderMidSeg t ++ renderMid ts

/-- The segment after both passes: heading level 1 → heading level 2,
attributes and text untouched. -/
def renderFixedSeg : HtmlSeg → List Char
  | .txt s => s
  | .h1open attrs => '<' :: 'h' :: '2' :: (attrs ++ ['>'])
  | .h1close => '<' :: '/' :: 'h' :: '2' :: '>' :: []

def renderFixed (toks : List HtmlSeg) : List Char :=
  match toks with
  | [] => []
  | t :: ts => renderFixedSeg t ++ renderFixed ts

/-- `<h1` (case-insensitive) at the head. -/
def startsOpenTri : List Char → Bool
  | a :: b :: c :: _ => a = '<' && (b = 'h' || b = 'H') && c = '1'
  | _ => false

/-- No `<h1` occurrence anywhere. -/
def cleanOpen : List Char → Bool
  | [] => true
  | c :: cs => !startsOpenTri (c :: cs) && cleanOpen cs

/-- `</h1>` (case-insensitive) at the head. -/
def startsClosePat : List Char → Bool
  | a :: b :: c :: d :: e :: _ => a = '<' && b = '/' && (c = 'h' || c = 'H') && d = '1' && e = '>'
  | _ => false

/-- No `</h1>` occurrence anywhere. -/
def cleanClose : List Char → Bool
  | [] => true
  | c :: cs => !startsClosePat (c :: cs) && cleanClose cs

/-- Side conditions per segment: text contains no heading tags of level 1;
attribute text contains no `>`, does not start with a word character
(otherwise `<h1` followed by it would not be a tag at all), and does not
smuggle in a `</h1>` that the tag's own `>` would complete. -/
def segWFb : HtmlSeg → Bool
  | .txt s => cleanOpen s && cleanClose s
  | .h1open attrs =>
    attrs.all (fun c => c ≠ '>') &&
    (match attrs.head? with
     | some hd => !isWordChar hd
     | none => true) &&
    cleanClose (attrs ++ ['>'])
  | .h1close => true

/-- No two adjacent text segments (a decomposition can always merge them). -/
def noTxtTxt : List HtmlSeg → Bool
  | HtmlSeg.txt _ :: HtmlSeg.txt _ :: _ => false
  | _ :: rest => noTxtTxt rest
  | [] => true

def segsWF (toks : List HtmlSeg) : Bool := toks.all segWFb && noTxtTxt toks

/-- A concrete description: text, an attributed `<h1>`, text, `</h1>`,
trailing text. -/
def sampleSegs : List HtmlSeg :=
  [HtmlSeg.txt "<p>Intro</p>".data, HtmlSeg.h1open " class=\"x\"".data,
   HtmlSeg.txt "Big Title".data, HtmlSeg.h1close, HtmlSeg.txt "<p>Rest</p>".data]

def sampleDesc : String := ⟨renderSegs sampleSegs⟩

def sampleRow : MatchedRow :=
  { priceCsv := none
    compareAtPriceCsv := none
    priceShopify := none
    compareAtPriceShopify := none
    tagsShopify := none
    tagsCsv := none
    templateSuffix := none
    handleCsv := none
    descriptionHtml := some sampleDesc }

/-! ### C7: what `check_mismatches` does to its argument tables

The only writes `check_mismatches` performs against the caller's two
dataframes are its normalization step (audit_engine.py lines 15-56): the
assignment of a new `sku_lower` column to each table (lines 17-18) and
the in-place numeric coercion of the price/inventory columns by
`validate_and_coerce` (lines 46, 49-56).  Everything afterwards operates
on the freshly built `merged` frame.  `checkMismatchesEffect` is the
state of a caller's table after the call returns. -/

inductive Cell where
  | text (v : String)
  | num (v : ℚ)
  | na
  deriving DecidableEq, Repr

/-- Python `str(cell)` (`astype(str)`).  The rendering of an
already-numeric cell is irrelevant here: numeric cells are only ever
re-coerced, which round-trips them. -/
def cellStr : Cell → String
  | .text v => v
  | .num v => toString v.num ++ "/" ++ toString v.den
  | .na => "nan"

structure Table where
  cols : List String
  rows : List (List (String × Cell))
  deriving DecidableEq, Repr

def findCell (row : List (String × Cell)) (k : String) : Cell :=
  match row with
  | [] => .na
  | p :: rest => if p.1 = k then p.2 else findCell rest k

/-- Rewrite one column's cell in a row. -/
def mapCol (row : List (String × Cell)) (k : String) (f : Cell → Cell) :
    List (String × Cell) :=
  row.map (fun p => if p.1 = k then (k, f p.2) else p)

/-- `df[k] = v`-style per-row assignment: overwrite when present,
append when absent. -/
def putCell (row : List (String × Cell)) (k : String) (v : Cell) :
    List (String × Cell) :=
  if (findCell row k) = Cell.na ∧ row.all (fun p => p.1 ≠ k) then row ++ [(k, v)]
  else mapCol row k (fun _ => v)

def splitOnChar (ch : Char) : List Char → List (List Char)
  | [] => [[]]
  | c :: rest =>
    if c = ch then [] :: splitOnChar ch rest
    else
      match splitOnChar ch rest with
      | [] => [[c]]
      | g :: gs => (c :: g) :: gs

def natOfDigits (l : List Char) : Nat :=
  l.foldl (fun acc c => acc * 10 + (c.toNat - 48)) 0

/-- Unsigned decimal parse: digits with at most one dot. -/
def parseUnsigned (body : List Char) : Option ℚ :=
  match splitOnChar '.' body with
  | [ip] =>
    if ip ≠ [] ∧ ip.all Char.isDigit then some (natOfDigits ip : ℚ) else none
  | [ip, fp] =>
    if (ip ≠ [] ∨ fp ≠ []) ∧ ip.all Char.isDigit ∧ fp.all Char.isDigit then
      some ((natOfDigits ip : ℚ) + (natOfDigits fp : ℚ) / (10 : ℚ) ^ fp.length)
    else none
  | _ => none

/-- Plain decimal parse (optional sign, digits, at most one dot), the
shape `validate_and_coerce` recognizes; scientific notation and infinity
spellings are not modelled. -/
def parseDecimal (l : List Char) : Option ℚ :=
  match l with
  | '-' :: rest => (parseUnsigned rest).map (fun q => -q)
  | '+' :: rest => parseUnsigned rest
  | _ => parseUnsigned l

/-- Lines 21-46: strip `$` and `,`, trim, then
`pd.to_numeric(..., errors='coerce')`. -/
def coerceCell (c : Cell) : Cell :=
  match c with
  | .na => .na
  | .num q => .num q
  | .text v =>
    match parseDecimal (trimChars ((v.data).filter (fun c => c ≠ '$' ∧ c ≠ ','))) with
    | some q => .num q
    | none => .na

/-- Lines 17-18: `df['sku'].astype(str).str.lower().str.strip()`. -/
def skuLowerCell (row : List (String × Cell)) : Cell :=
  .text ⟨trimChars (lc (cellStr (findCell row "sku")).data)⟩

def csvNumericCols : List String := ["price", "compareAtPrice", "inventory"]

def shopifyNumericCols : List String := ["price", "compareAtPrice", "inventoryQuantity"]

/-- The per-row effect of the normalization step: the `sku_lower`
assignment followed by the guarded numeric coercions. -/
def normalizeRow (numCols cols : List String) (row : List (String × Cell)) :
    List (String × Cell) :=
  numCols.foldl (fun rw c => if c ∈ cols then mapCol rw c coerceCell else rw)
    (putCell row "sku_lower" (skuLowerCell row))

/-- The caller's table after `check_mismatches` returns. -/
def checkMismatchesEffect (numCols : List String) (t : Table) : Table :=
  { cols := if "sku_lower" ∈ t.cols then t.cols else t.cols ++ ["sku_lower"]
    rows := t.rows.map (normalizeRow numCols t.cols) }

/-- A small source table as a caller would hold it (string cells from
`read_csv(dtype=str)`). -/
def srcTable : Table :=
  { cols := ["sku", "price"]
    rows := [[("sku", Cell.text "ABC"), ("price", Cell.text "$1,000")]] }

/-! ### C9: creation planner grouping (app.py, `process_creations`)

Lines 179-187: every candidate row first has its blank or missing
`handle` replaced by its own `sku`, then rows are grouped by the
resulting handle.  The business key is a string (required by the data
model), so no group key is ever NaN. -/

structure CreationRow where
  sku : String
  handle : Option String
  deriving DecidableEq, Repr

/-- The `apply`-lambda of lines 181-184: `row['sku'] if
pd.isna(row.get('handle')) or not str(row.get('handle')).strip() else
row['handle']`. -/
def effectiveHandle (r : CreationRow) : String :=
  match r.handle with
  | none => r.sku
  | some h => if trimChars h.data = [] then r.sku else h

/-- `groupby('handle')`: the member rows of the group keyed `k`. -/
def creationGroup (rows : List CreationRow) (k : String) : List CreationRow :=
  rows.filter (fun r => effectiveHandle r = k)

/-! ### The batch dispatcher (shopify_service.py, `batch_process_mismatches`)

The dispatcher takes the approved discrepancy rows, batches the
price-class rows by product, issues one bulk variant mutation per group,
chunks the attribute-class rows into aliased composite mutations, and
returns a map from dataframe index to error message; an index absent
from the map means success.  The remote system is an oracle here: one
response per price group (keyed by product id) and one per chunk (keyed
by chunk position).  The GraphQL payload text plays no role in the row
attribution and is not modelled; user errors always carry a message
(the `.get('message', ...)` defaults never fire in the model). -/

/-- One approved discrepancy row: dataframe index, discrepancy kind and
the product identifier used to group price-class corrections. -/
structure FixRow where
  idx : Nat
  field : Kind
  productId : String
  deriving DecidableEq, Repr

/-- An element of a GraphQL `userErrors[].field` path. -/
inductive PathElem where
  | str (v : String)
  | int (v : Int)
  deriving DecidableEq, Repr

structure UserError where
  field : List PathElem
  message : String
  deriving DecidableEq, Repr

/-- Lines 768-771: a parsable path has length ≥ 2, starts with the
string `'variants'` and has an integer in second position. -/
def pricePathIndex (fp : List PathElem) : Option Int :=
  match fp with
  | PathElem.str "variants" :: PathElem.int i :: _ => some i
  | _ => none

/-- The accumulating error map (a Python dict keyed by dataframe index;
modelled as an association list with unique keys, insertion-ordered). -/
abbrev ErrMap := List (Nat × String)

def getErr : ErrMap → Nat → Option String
  | [], _ => none
  | p :: rest, k => if p.1 = k then some p.2 else getErr rest k

/-- `errors[k] = v`. -/
def setErr : ErrMap → Nat → String → ErrMap
  | [], k, v => [(k, v)]
  | p :: rest, k, v => if p.1 = k then (k, v) :: rest else p :: setErr rest k v

/-- `errors.get(k, d)`. -/
def getErrD (m : ErrMap) (k : Nat) (d : String) : String := (getErr m k).getD d

def isPriceKind (k : Kind) : Bool :=
  decide (k = Kind.price) || decide (k = Kind.compare_at_price) ||
    decide (k = Kind.sticky_sale)

/-- Lines 737-782, the handling of one `product_id` group: `groupIdxs`
are the dataframe indices of the group's rows in submission order (the
`idx_map`); a transport failure marks the whole group, a response error
with a parsable in-range path marks exactly the row at that position
(out-of-range parsed positions are dropped), and an unparsable path
appends the message to every row of the group. -/
def processPriceGroup (errors : ErrMap) (groupIdxs : List Nat)
    (resp : Except String (List UserError)) : ErrMap :=
  match resp with
  | Except.error e => groupIdxs.foldl (fun m idx => setErr m idx e) errors
  | Except.ok userErrors =>
    userErrors.foldl (fun m ue =>
      match pricePathIndex ue.field with
      | some i =>
        if h : 0 ≤ i ∧ i.toNat < groupIdxs.length then
          setErr m (groupIdxs.get ⟨i.toNat, h.2⟩) ue.message
        else m
      | none =>
        groupIdxs.foldl
          (fun m' idx => setErr m' idx (getErrD m' idx "" ++ ue.message ++ " | ")) m)
      errors

/-- The distinct product ids of the price-class rows (pandas iterates
groups in sorted key order; the order is irrelevant to the properties
proved here, so insertion order is used). -/
def productIds (rows : List FixRow) : List String :=
  rows.foldl (fun acc r => if r.productId ∈ acc then acc else acc ++ [r.productId]) []

/-- Python `", ".join(...)`. -/
def joinComma : List String → String
  | [] => ""
  | [s] => s
  | s :: rest => s ++ ", " ++ joinComma rest

/-- Fuel-based runner for `str.replace(pat, '')` (delete every
occurrence, left to right). -/
def removeAllF (pat : List Char) : Nat → List Char → List Char
  | 0, l => l
  | _ + 1, [] => []
  | fuel + 1, c :: cs =>
    if pat.isPrefixOf (c :: cs) ∧ pat ≠ [] then removeAllF pat fuel ((c :: cs).drop pat.length)
    else c :: removeAllF pat fuel cs

def removeAll (pat l : List Char) : List Char := removeAllF pat l.length l

/-- Line 841: `alias.replace('_tag', '').replace('_suffix', '')`. -/
def baseAlias (al : String) : String :=
  ⟨removeAll "_suffix".data (removeAll "_tag".data al.data)⟩

/-- The alias given to chunk position `i` (line 801). -/
def mutAlias (i : Nat) : String := "mut_" ++ toString i

def aliasToIdxGo (base : String) : Nat → List FixRow → Option Nat
  | _, [] => none
  | i, r :: rest => if base = mutAlias i then some r.idx else aliasToIdxGo base (i + 1) rest

/-- `idx_to_alias.get(base_alias)`: the dataframe index of the chunk row
whose alias (after stripping the `_tag`/`_suffix` decorations) matches. -/
def aliasToIdx (chunk : List FixRow) (al : String) : Option Nat :=
  aliasToIdxGo (baseAlias al) 0 chunk

/-- Lines 784-851, one chunk of attribute-class rows: a transport
failure marks every row of the chunk; otherwise each response alias with
a non-empty user-error list appends its joined messages to the row the
alias maps back to (unknown aliases are ignored). -/
def processOtherChunk (errors : ErrMap) (chunk : List FixRow)
    (resp : Except String (List (String × List String))) : ErrMap :=
  match resp with
  | Except.error e => chunk.foldl (fun m r => setErr m r.idx e) errors
  | Except.ok entries =>
    entries.foldl (fun m entry =>
      if entry.2 ≠ [] then
        match aliasToIdx chunk entry.1 with
        | some idx => setErr m idx (getErrD m idx "" ++ joinComma entry.2 ++ " | ")
        | none => m
      else m) errors

/-- `rows[c:c+chunk_size]` slices, in order. -/
def chunksAux (cap : Nat) : List FixRow → List FixRow → Nat → List (List FixRow)
  | cur, [], _ => [cur.reverse]
  | cur, x :: xs, 0 => cur.reverse :: chunksAux cap [x] xs (cap - 1)
  | cur, x :: xs, k + 1 => chunksAux cap (x :: cur) xs k

def chunksOf (n : Nat) (l : List FixRow) : List (List FixRow) :=
  match l with
  | [] => []
  | x :: xs => chunksAux n [x] xs (n - 1)

def processOtherChunks (otherResp : Nat → Except String (List (String × List String))) :
    ErrMap → Nat → List (List FixRow) → ErrMap
  | m, _, [] => m
  | m, i, c :: cs => processOtherChunks otherResp (processOtherChunk m c (otherResp i)) (i + 1) cs

/-- Python `v.strip(" |")` (lines 853-855). -/
def isSepChar (c : Char) : Bool := c = ' ' || c = '|'

def stripSep (s : String) : String :=
  ⟨((s.data.dropWhile isSepChar).reverse.dropWhile isSepChar).reverse⟩

/-- `batch_process_mismatches` (lines 729-864): price-class rows are
grouped by product id and dispatched per group; attribute-class rows
(everything else except `stale_clearance_tag`) are chunked by 50 and
dispatched per chunk; all accumulated error strings are stripped of
trailing separators; finally every `stale_clearance_tag` row is marked
`"Manual review required"` without any remote call. -/
def batchProcessMismatches (df : List FixRow)
    (priceResp : String → Except String (List UserError))
    (otherResp : Nat → Except String (List (String × List String))) : ErrMap :=
  let priceDf := df.filter (fun r => isPriceKind r.field)
  let e₁ := (productIds priceDf).foldl
    (fun m pid =>
      processPriceGroup m
        ((priceDf.filter (fun r => r.productId = pid)).map FixRow.idx) (priceResp pid)) []
  let otherDf := df.filter
    (fun r => !isPriceKind r.field && decide (r.field ≠ Kind.stale_clearance_tag))
  let e₂ := processOtherChunks otherResp e₁ 0 (chunksOf 50 otherDf)
  let e₃ := e₂.map (fun p => (p.1, stripSep p.2))
  (df.filter (fun r => r.field = Kind.stale_clearance_tag)).foldl
    (fun m r => setErr m r.idx "Manual review required") e₃

/-! ### The stale-clearance scan (audit_engine.py, `check_stale_clearance`) -/

/-- One Shopify variant row as seen by the stale scan; the on-hand
quantity is the already-coerced `pd.to_numeric(..., errors='coerce')`
value (`none` = NaN). -/
structure ShopifyRow where
  sku : Option String
  tags : Option String
  inventoryQuantity : Option ℚ
  deriving DecidableEq, Repr

/-- Line 238: `str(tags).lower().replace(' ', '').split(',')`. -/
def staleTags (raw : String) : List (List Char) :=
  splitComma ((lc raw.data).filter (fun c => c ≠ ' '))

/-- Lines 235 and 242: `str(sku).lower().strip()`. -/
def normKey (s : Option String) : List Char := trimChars (lc (rawStr s).data)

/-- The business-key set of the source feed (line 235). -/
def csvKeySet (skus : List (Option String)) : List (List Char) := skus.map normKey

/-- Lines 239-243: clearance tag present, strictly positive on-hand
quantity, business key absent from the feed's key set. -/
def staleQualifies (csvKeys : List (List Char)) (r : ShopifyRow) : Bool :=
  decide ("clearance".data ∈ staleTags (rawStr r.tags)) &&
  (match r.inventoryQuantity with
   | some q => decide (q > 0)
   | none => false) &&
  decide (normKey r.sku ∉ csvKeys)

/-- Lines 234-250: the scan appends one `stale_clearance_tag` record per
qualifying row, in row order (each element of the result stands for the
emitted record of that row). -/
def checkStaleClearance (shop : List ShopifyRow) (csvSkus : List (Option String)) :
    List ShopifyRow :=
  shop.foldl (fun acc r => if staleQualifies (csvKeySet csvSkus) r then acc ++ [r] else acc) []

def priceBatchRows : List FixRow :=
  [⟨0, Kind.price, "gid-7"⟩, ⟨1, Kind.compare_at_price, "gid-7"⟩, ⟨2, Kind.sticky_sale, "gid-7"⟩]

def staleShopRow : ShopifyRow :=
  { sku := some "OLD-1", tags := some "Clearance, Summer", inventoryQuantity := some 5 }

theorem openMatch_rest_length {l : List Char} {attrs rest : List Char}
    (h : openMatch l = some (attrs, rest)) : rest.length < l.length := by
  unfold openMatch at h
  split at h
  · split at h
    · split at h
      · simp only [Option.some.injEq, Prod.mk.injEq] at h
        obtain ⟨-, h2⟩ := h
        subst h2
        simp only [List.length_drop, List.length_cons]
        omega
      · exact absurd h (by simp)
    · exact absurd h (by simp)
  · exact absurd h (by simp)

theorem closeMatch_rest_length {l : List Char} {rest : List Char}
    (h : closeMatch l = some rest) : rest.length < l.length := by
  unfold closeMatch at h
  split at h
  · split at h
    · simp only [Option.some.injEq] at h
      subst h
      simp
      omega
    · exact absurd h (by simp)
  · exact absurd h (by simp)

theorem fixOpenF_succ (f : Nat) (l : List Char) :
    fixOpenF (f + 1) l =
      match openMatch l with
      | some (attrs, rest) => '<' :: 'h' :: '2' :: (attrs ++ '>' :: fixOpenF f rest)
      | none =>
        match l with
        | [] => []
        | c :: cs => c :: fixOpenF f cs := rfl

theorem fixOpenF_congr : ∀ f₁ f₂ l, l.length ≤ f₁ → l.length ≤ f₂ →
    fixOpenF f₁ l = fixOpenF f₂ l := by
  intro f₁
  induction f₁ with
  | zero =>
    intro f₂ l h₁ _
    have : l = [] := List.length_eq_zero.mp (Nat.le_zero.mp h₁)
    subst this
    cases f₂ <;> rfl
  | succ f ih =>
    intro f₂ l h₁ h₂
    cases f₂ with
    | zero =>
      have : l = [] := List.length_eq_zero.mp (Nat.le_zero.mp h₂)
      subst this
      rfl
    | succ f' =>
      rw [fixOpenF_succ f l, fixOpenF_succ f' l]
      cases hm : openMatch l with
      | some p =>
        obtain ⟨attrs, rest⟩ := p
        have hr := openMatch_rest_length hm
        simp only
        rw [ih f' rest (by omega) (by omega)]
      | none =>
        cases l with
        | nil => rfl
        | cons c cs =>
          simp only [List.length_cons] at h₁ h₂
          simp only
          rw [ih f' cs (by omega) (by omega)]

/-- The step equation of `fixOpen`, free of fuel. -/
theorem fixOpen_eq (l : List Char) :
    fixOpen l =
      match openMatch l with
      | some (attrs, rest) => '<' :: 'h' :: '2' :: (attrs ++ '>' :: fixOpen rest)
      | none =>
        match l with
        | [] => []
        | c :: cs => c :: fixOpen cs := by
  cases l with
  | nil => rfl
  | cons c cs =>
    show (match openMatch (c :: cs) with
          | some (attrs, rest) => '<' :: 'h' :: '2' :: (attrs ++ '>' :: fixOpenF cs.length rest)
          | none =>
            match c :: cs with
            | [] => []
            | x :: xs => x :: fixOpenF cs.length xs) = _
    cases hm : openMatch (c :: cs) with
    | some p =>
      obtain ⟨attrs, rest⟩ := p
      have hr := openMatch_rest_length hm
      simp only [List.length_cons] at hr
      simp only
      rw [show fixOpen rest = fixOpenF rest.length rest from rfl,
        fixOpenF_congr cs.length rest.length rest (by omega) (by omega)]
    | none =>
      simp only
      rfl

theorem fixCloseF_succ (f : Nat) (l : List Char) :
    fixCloseF (f + 1) l =
      match closeMatch l with
      | some rest => '<' :: '/' :: 'h' :: '2' :: '>' :: fixCloseF f rest
      | none =>
        match l with
        | [] => []
        | c :: cs => c :: fixCloseF f cs := rfl

theorem fixCloseF_congr : ∀ f₁ f₂ l, l.length ≤ f₁ → l.length ≤ f₂ →
    fixCloseF f₁ l = fixCloseF f₂ l := by
  intro f₁
  induction f₁ with
  | zero =>
    intro f₂ l h₁ _
    have : l = [] := List.length_eq_zero.mp (Nat.le_zero.mp h₁)
    subst this
    cases f₂ <;> rfl
  | succ f ih =>
    intro f₂ l h₁ h₂
    cases f₂ with
    | zero =>
      have : l = [] := List.length_eq_zero.mp (Nat.le_zero.mp h₂)
      subst this
      rfl
    | succ f' =>
      rw [fixCloseF_succ f l, fixCloseF_succ f' l]
      cases hm : closeMatch l with
      | some rest =>
        have hr := closeMatch_rest_length hm
        simp only
        rw [ih f' rest (by omega) (by omega)]
      | none =>
        cases l with
        | nil => rfl
        | cons c cs =>
          simp only [List.length_cons] at h₁ h₂
          simp only
          rw [ih f' cs (by omega) (by omega)]

/-- The step equation of `fixClose`, free of fuel. -/
theorem fixClose_eq (l : List Char) :
    fixClose l =
      match closeMatch l with
      | some rest => '<' :: '/' :: 'h' :: '2' :: '>' :: fixClose rest
      | none =>
        match l with
        | [] => []
        | c :: cs => c :: fixClose cs := by
  cases l with
  | nil => rfl
  | cons c cs =>
    show (match closeMatch (c :: cs) with
          | some rest => '<' :: '/' :: 'h' :: '2' :: '>' :: fixCloseF cs.length rest
          | none =>
            match c :: cs with
            | [] => []
            | x :: xs => x :: fixCloseF cs.length xs) = _
    cases hm : closeMatch (c :: cs) with
    | some rest =>
      have hr := closeMatch_rest_length hm
      simp only [List.length_cons] at hr
      simp only
      rw [show fixClose rest = fixCloseF rest.length rest from rfl,
        fixCloseF_congr cs.length rest.length rest (by omega) (by omega)]
    | none =>
      simp only
      rfl

/-! ### Shape lemmas about the individual rule blocks -/

theorem mem_priceCheck {m : Mismatch} {r : MatchedRow} :
    m ∈ priceCheck r ↔
      m = ⟨Kind.price, none⟩ ∧ ∃ a b, r.priceCsv = some a ∧ r.priceShopify = some b ∧ a ≠ b := by
  unfold priceCheck
  rcases r.priceCsv with _ | a <;> rcases r.priceShopify with _ | b <;> simp
  by_cases h : a = b <;> simp [h]

theorem length_priceCheck (r : MatchedRow) : (priceCheck r).length ≤ 1 := by
  unfold priceCheck
  rcases r.priceCsv with _ | a <;> rcases r.priceShopify with _ | b <;> simp
  split <;> simp

theorem mem_promoCheck {m : Mismatch} {clr : Bool} {r : MatchedRow} :
    m ∈ promoCheck clr r ↔
      (clr = true ∧ m = ⟨Kind.compare_at_price, none⟩ ∧
        ∃ a b, r.compareAtPriceCsv = some a ∧ r.compareAtPriceShopify = some b ∧ a ≠ b) ∨
      (clr = false ∧ m = ⟨Kind.sticky_sale, none⟩ ∧
        ∃ c, r.compareAtPriceShopify = some c ∧ floatNe (some c) r.priceShopify = true) := by
  unfold promoCheck
  cases clr with
  | true =>
    rcases r.compareAtPriceCsv with _ | a <;> rcases r.compareAtPriceShopify with _ | b <;> simp
    by_cases h : a = b <;> simp [h]
  | false =>
    rcases h : r.compareAtPriceShopify with _ | c <;> simp [and_comm]

theorem length_promoCheck (clr : Bool) (r : MatchedRow) : (promoCheck clr r).length ≤ 1 := by
  unfold promoCheck
  cases clr <;> simp
  · rcases r.compareAtPriceShopify with _ | c <;> simp
    split <;> simp
  · rcases r.compareAtPriceCsv with _ | a <;> rcases r.compareAtPriceShopify with _ | b <;> simp
    split <;> simp

theorem mem_templateCheck {m : Mismatch} {clr : Bool} {r : MatchedRow} :
    m ∈ templateCheck clr r ↔
      m = ⟨Kind.incorrect_template_suffix, none⟩ ∧
        normTemplate r.templateSuffix ≠ expectedTemplate clr r := by
  unfold templateCheck
  split <;> simp_all

theorem mem_oversizeCheck {m : Mismatch} {r : MatchedRow} :
    m ∈ oversizeCheck r ↔
      m = ⟨Kind.missing_oversize_tag, none⟩ ∧ isOversize r = true ∧
        "oversize".data ∉ shopTags r ∧ "overweight".data ∉ shopTags r := by
  unfold oversizeCheck
  split <;> simp_all

theorem mem_clearanceCheck {m : Mismatch} {clr : Bool} {pd : Option Bool} {r : MatchedRow} :
    m ∈ clearanceCheck clr pd r ↔
      (clr = true ∧ m = ⟨Kind.clearance_price_mismatch, none⟩ ∧
        floatEq r.priceCsv r.compareAtPriceCsv = true ∧ pd = some false ∧
        ("clearance".data ∈ shopTags r ∨ normTemplate r.templateSuffix = "clearance".data)) ∨
      (clr = true ∧ m = ⟨Kind.missing_clearance_tag, none⟩ ∧
        floatEq r.priceCsv r.compareAtPriceCsv = false ∧ "clearance".data ∉ shopTags r) := by
  unfold clearanceCheck
  cases clr with
  | false => simp
  | true =>
    cases hq : floatEq r.priceCsv r.compareAtPriceCsv with
    | false =>
      simp only [if_true]
      split <;> simp_all [and_comm]
    | true =>
      simp only [if_true]
      rcases pd with _ | b <;> simp
      cases b with
      | false => simp_all [and_comm]
      | true => simp

theorem mem_h1Check {m : Mismatch} {r : MatchedRow} :
    m ∈ h1Check r ↔
      ∃ d, r.descriptionHtml = some d ∧ hasOpenMatch d.data = true ∧
        m = ⟨Kind.h1_in_description, some (fixDescriptionHtml d)⟩ := by
  unfold h1Check
  rcases h : r.descriptionHtml with _ | d
  · simp
  · simp only
    split <;> simp_all

theorem mem_rowMismatches {m : Mismatch} {clr : Bool} {pd : Option Bool} {r : MatchedRow} :
    m ∈ rowMismatches clr pd r ↔
      m ∈ priceCheck r ∨ m ∈ promoCheck clr r ∨ m ∈ templateCheck clr r ∨
      m ∈ oversizeCheck r ∨ m ∈ clearanceCheck clr pd r ∨ m ∈ h1Check r := by
  unfold rowMismatches
  simp [List.mem_append, or_assoc]

/-! ### C1: template expectation priority and the template mismatch rule -/

/-- The three-way priority written as nested conditionals. -/
theorem expectedTemplateCore_eq (clr : Bool) (st ct : List (List Char)) (pc cc ps cs : Option ℚ) :
    expectedTemplateCore clr st ct pc cc ps cs =
      if isOversizeCore st ct then "heavy-products".data
      else if decide ("clearance".data ∈ st) && realDiscountCore pc cc ps cs then "clearance".data
      else if clr && realDiscountCore pc cc ps cs then "clearance".data
      else "default template".data := by
  have h₁ : "heavy-products".data ≠ "default template".data := by decide
  have h₂ : "clearance".data ≠ "default template".data := by decide
  unfold expectedTemplateCore
  cases hov : isOversizeCore st ct <;>
    cases hcd : realDiscountCore pc cc ps cs <;>
      cases htg : decide ("clearance".data ∈ st) <;> cases clr <;>
        simp_all

/-- Claim C1.  The expected template is computed by the claimed priority —
oversize ⇒ `heavy-products`; else platform clearance tag plus a real
discount ⇒ `clearance`; else clearance feed plus a real discount (row
not oversize) ⇒ `clearance`; else the default — an
`incorrect_template_suffix` discrepancy is emitted iff the normalized
actual template differs from the expected one, and the expected template
is a function of the (tags, prices, feed type) tuple alone. -/
theorem expected_template_priority (clr : Bool) (pd : Option Bool) (r : MatchedRow) :
    (isOversize r = true → expectedTemplate clr r = "heavy-products".data) ∧
    (isOversize r = false → "clearance".data ∈ shopTags r → realDiscount r = true →
      expectedTemplate clr r = "clearance".data) ∧
    (isOversize r = false → ¬("clearance".data ∈ shopTags r ∧ realDiscount r = true) →
      clr = true → realDiscount r = true → expectedTemplate clr r = "clearance".data) ∧
    (isOversize r = false → ¬("clearance".data ∈ shopTags r ∧ realDiscount r = true) →
      ¬(clr = true ∧ realDiscount r = true) →
      expectedTemplate clr r = "default template".data) ∧
    (Kind.incorrect_template_suffix ∈ (rowMismatches clr pd r).map Mismatch.kind ↔
      normTemplate r.templateSuffix ≠ expectedTemplate clr r) ∧
    expectedTemplate clr r =
      expectedTemplateCore clr (shopTags r) (csvTags r)
        r.priceCsv r.compareAtPriceCsv r.priceShopify r.compareAtPriceShopify := by
  have hcore := expectedTemplateCore_eq clr (shopTags r) (csvTags r)
    r.priceCsv r.compareAtPriceCsv r.priceShopify r.compareAtPriceShopify
  refine ⟨?_, ?_, ?_, ?_, ?_, rfl⟩
  · intro hov
    unfold isOversize at hov
    unfold expectedTemplate
    rw [hcore, hov]
    simp
  · intro hov htg hd
    unfold isOversize at hov
    unfold realDiscount at hd
    unfold expectedTemplate
    rw [hcore, hov, hd]
    simp [htg]
  · intro hov hnot hclr hd
    have htg : "clearance".data ∉ shopTags r := fun h => hnot ⟨h, hd⟩
    unfold isOversize at hov
    unfold realDiscount at hd
    unfold expectedTemplate
    rw [hcore, hov, hd, hclr]
    simp [htg]
  · intro hov hnot hnot₂
    unfold expectedTemplate
    rw [hcore]
    unfold isOversize at hov
    rw [hov]
    cases hd : realDiscount r with
    | false =>
      unfold realDiscount at hd
      rw [hd]
      simp
    | true =>
      have htg : "clearance".data ∉ shopTags r := fun h => hnot ⟨h, hd⟩
      have hclr : clr = false := by
        cases clr
        · rfl
        · exact absurd ⟨rfl, hd⟩ hnot₂
      unfold realDiscount at hd
      rw [hd, hclr]
      simp [htg]
  · rw [List.mem_map]
    constructor
    · rintro ⟨m, hm, hk⟩
      rw [mem_rowMismatches] at hm
      rcases hm with h | h | h | h | h | h
      · rw [mem_priceCheck] at h
        rw [h.1] at hk
        cases hk
      · rw [mem_promoCheck] at h
        rcases h with ⟨-, h, -⟩ | ⟨-, h, -⟩ <;> rw [h] at hk <;> cases hk
      · rw [mem_templateCheck] at h
        exact h.2
      · rw [mem_oversizeCheck] at h
        rw [h.1] at hk
        cases hk
      · rw [mem_clearanceCheck] at h
        rcases h with ⟨-, h, -⟩ | ⟨-, h, -⟩ <;> rw [h] at hk <;> cases hk
      · rw [mem_h1Check] at h
        obtain ⟨d, -, -, h⟩ := h
        rw [h] at hk
        cases hk
    · intro hne
      exact ⟨⟨Kind.incorrect_template_suffix, none⟩,
        mem_rowMismatches.mpr (Or.inr (Or.inr (Or.inl (mem_templateCheck.mpr ⟨rfl, hne⟩)))), rfl⟩

/-! ### C2: the price rule and the promotional-price rule -/

/-- Claim C2.  Per matched row at most one `price` discrepancy (emitted exactly
when both prices are present and differ) and at most one
promotional-price discrepancy: `compare_at_price` exactly on a clearance
feed with both list prices present and differing, `sticky_sale` exactly
on a non-clearance feed with a present platform list price that differs
(NaN-aware) from the platform price; never both. -/
theorem price_and_promo_rules (clr : Bool) (pd : Option Bool) (r : MatchedRow) :
    ((rowMismatches clr pd r).countP (fun m => decide (m.kind = Kind.price)) ≤ 1) ∧
    (Kind.price ∈ (rowMismatches clr pd r).map Mismatch.kind ↔
      ∃ a b, r.priceCsv = some a ∧ r.priceShopify = some b ∧ a ≠ b) ∧
    ((rowMismatches clr pd r).countP
      (fun m => decide (m.kind = Kind.compare_at_price ∨ m.kind = Kind.sticky_sale)) ≤ 1) ∧
    (Kind.compare_at_price ∈ (rowMismatches clr pd r).map Mismatch.kind ↔
      clr = true ∧
        ∃ a b, r.compareAtPriceCsv = some a ∧ r.compareAtPriceShopify = some b ∧ a ≠ b) ∧
    (Kind.sticky_sale ∈ (rowMismatches clr pd r).map Mismatch.kind ↔
      clr = false ∧
        ∃ c, r.compareAtPriceShopify = some c ∧ floatNe (some c) r.priceShopify = true) ∧
    ¬(Kind.compare_at_price ∈ (rowMismatches clr pd r).map Mismatch.kind ∧
      Kind.sticky_sale ∈ (rowMismatches clr pd r).map Mismatch.kind) := by
  have hcmp : (Kind.compare_at_price ∈ (rowMismatches clr pd r).map Mismatch.kind ↔
      clr = true ∧
        ∃ a b, r.compareAtPriceCsv = some a ∧ r.compareAtPriceShopify = some b ∧ a ≠ b) := by
    simp only [List.mem_map, mem_rowMismatches]
    constructor
    · rintro ⟨m, hm, hk⟩
      rcases hm with h | h | h | h | h | h
      · rw [mem_priceCheck] at h
        rw [h.1] at hk
        cases hk
      · rw [mem_promoCheck] at h
        rcases h with ⟨hc, -, hx⟩ | ⟨-, h, -⟩
        · exact ⟨hc, hx⟩
        · rw [h] at hk
          cases hk
      · rw [mem_templateCheck] at h
        rw [h.1] at hk
        cases hk
      · rw [mem_oversizeCheck] at h
        rw [h.1] at hk
        cases hk
      · rw [mem_clearanceCheck] at h
        rcases h with ⟨-, h, -⟩ | ⟨-, h, -⟩ <;> rw [h] at hk <;> cases hk
      · rw [mem_h1Check] at h
        obtain ⟨d, -, -, h⟩ := h
        rw [h] at hk
        cases hk
    · rintro ⟨hc, hx⟩
      exact ⟨⟨Kind.compare_at_price, none⟩,
        Or.inr (Or.inl (mem_promoCheck.mpr (Or.inl ⟨hc, rfl, hx⟩))), rfl⟩
  have hss : (Kind.sticky_sale ∈ (rowMismatches clr pd r).map Mismatch.kind ↔
      clr = false ∧
        ∃ c, r.compareAtPriceShopify = some c ∧ floatNe (some c) r.priceShopify = true) := by
    simp only [List.mem_map, mem_rowMismatches]
    constructor
    · rintro ⟨m, hm, hk⟩
      rcases hm with h | h | h | h | h | h
      · rw [mem_priceCheck] at h
        rw [h.1] at hk
        cases hk
      · rw [mem_promoCheck] at h
        rcases h with ⟨-, h, -⟩ | ⟨hc, -, hx⟩
        · rw [h] at hk
          cases hk
        · exact ⟨hc, hx⟩
      · rw [mem_templateCheck] at h
        rw [h.1] at hk
        cases hk
      · rw [mem_oversizeCheck] at h
        rw [h.1] at hk
        cases hk
      · rw [mem_clearanceCheck] at h
        rcases h with ⟨-, h, -⟩ | ⟨-, h, -⟩ <;> rw [h] at hk <;> cases hk
      · rw [mem_h1Check] at h
        obtain ⟨d, -, -, h⟩ := h
        rw [h] at hk
        cases hk
    · rintro ⟨hc, hx⟩
      exact ⟨⟨Kind.sticky_sale, none⟩,
        Or.inr (Or.inl (mem_promoCheck.mpr (Or.inr ⟨hc, rfl, hx⟩))), rfl⟩
  refine ⟨?_, ?_, ?_, hcmp, hss, ?_⟩
  · unfold rowMismatches
    simp only [List.countP_append]
    have z₂ : (promoCheck clr r).countP (fun m => decide (m.kind = Kind.price)) = 0 :=
      List.countP_eq_zero.mpr (by
        intro m hm
        rw [mem_promoCheck] at hm
        rcases hm with ⟨-, h, -⟩ | ⟨-, h, -⟩ <;> subst h <;> simp)
    have z₃ : (templateCheck clr r).countP (fun m => decide (m.kind = Kind.price)) = 0 :=
      List.countP_eq_zero.mpr (by
        intro m hm
        rw [mem_templateCheck] at hm
        rw [hm.1]
        simp)
    have z₄ : (oversizeCheck r).countP (fun m => decide (m.kind = Kind.price)) = 0 :=
      List.countP_eq_zero.mpr (by
        intro m hm
        rw [mem_oversizeCheck] at hm
        rw [hm.1]
        simp)
    have z₅ : (clearanceCheck clr pd r).countP (fun m => decide (m.kind = Kind.price)) = 0 :=
      List.countP_eq_zero.mpr (by
        intro m hm
        rw [mem_clearanceCheck] at hm
        rcases hm with ⟨-, h, -⟩ | ⟨-, h, -⟩ <;> subst h <;> simp)
    have z₆ : (h1Check r).countP (fun m => decide (m.kind = Kind.price)) = 0 :=
      List.countP_eq_zero.mpr (by
        intro m hm
        rw [mem_h1Check] at hm
        obtain ⟨d, -, -, h⟩ := hm
        subst h
        simp)
    have h₁ : (priceCheck r).countP (fun m => decide (m.kind = Kind.price)) ≤ 1 :=
      le_trans (List.countP_le_length _) (length_priceCheck r)
    omega
  · simp only [List.mem_map, mem_rowMismatches]
    constructor
    · rintro ⟨m, hm, hk⟩
      rcases hm with h | h | h | h | h | h
      · rw [mem_priceCheck] at h
        exact h.2
      · rw [mem_promoCheck] at h
        rcases h with ⟨-, h, -⟩ | ⟨-, h, -⟩ <;> rw [h] at hk <;> cases hk
      · rw [mem_templateCheck] at h
        rw [h.1] at hk
        cases hk
      · rw [mem_oversizeCheck] at h
        rw [h.1] at hk
        cases hk
      · rw [mem_clearanceCheck] at h
        rcases h with ⟨-, h, -⟩ | ⟨-, h, -⟩ <;> rw [h] at hk <;> cases hk
      · rw [mem_h1Check] at h
        obtain ⟨d, -, -, h⟩ := h
        rw [h] at hk
        cases hk
    · intro hx
      exact ⟨⟨Kind.price, none⟩, Or.inl (mem_priceCheck.mpr ⟨rfl, hx⟩), rfl⟩
  · unfold rowMismatches
    simp only [List.countP_append]
    have pp : ∀ m : Mismatch,
        (fun m : Mismatch =>
          decide (m.kind = Kind.compare_at_price ∨ m.kind = Kind.sticky_sale)) m = true ↔
        (m.kind = Kind.compare_at_price ∨ m.kind = Kind.sticky_sale) := by
      intro m
      simp
    have z₁ : (priceCheck r).countP
        (fun m => decide (m.kind = Kind.compare_at_price ∨ m.kind = Kind.sticky_sale)) = 0 :=
      List.countP_eq_zero.mpr (by
        intro m hm
        rw [mem_priceCheck] at hm
        rw [hm.1]
        simp)
    have z₃ : (templateCheck clr r).countP
        (fun m => decide (m.kind = Kind.compare_at_price ∨ m.kind = Kind.sticky_sale)) = 0 :=
      List.countP_eq_zero.mpr (by
        intro m hm
        rw [mem_templateCheck] at hm
        rw [hm.1]
        simp)
    have z₄ : (oversizeCheck r).countP
        (fun m => decide (m.kind = Kind.compare_at_price ∨ m.kind = Kind.sticky_sale)) = 0 :=
      List.countP_eq_zero.mpr (by
        intro m hm
        rw [mem_oversizeCheck] at hm
        rw [hm.1]
        simp)
    have z₅ : (clearanceCheck clr pd r).countP
        (fun m => decide (m.kind = Kind.compare_at_price ∨ m.kind = Kind.sticky_sale)) = 0 :=
      List.countP_eq_zero.mpr (by
        intro m hm
        rw [mem_clearanceCheck] at hm
        rcases hm with ⟨-, h, -⟩ | ⟨-, h, -⟩ <;> subst h <;> simp)
    have z₆ : (h1Check r).countP
        (fun m => decide (m.kind = Kind.compare_at_price ∨ m.kind = Kind.sticky_sale)) = 0 :=
      List.countP_eq_zero.mpr (by
        intro m hm
        rw [mem_h1Check] at hm
        obtain ⟨d, -, -, h⟩ := hm
        subst h
        simp)
    have h₂ : (promoCheck clr r).countP
        (fun m => decide (m.kind = Kind.compare_at_price ∨ m.kind = Kind.sticky_sale)) ≤ 1 :=
      le_trans (List.countP_le_length _) (length_promoCheck clr r)
    omega
  · rintro ⟨h₁, h₂⟩
    rw [hcmp] at h₁
    rw [hss] at h₂
    rw [h₁.1] at h₂
    cases h₂.1

theorem expected_template_priority_witness :
    expectedTemplate true oversizeDiscountRow = "heavy-products".data ∧
    (Kind.incorrect_template_suffix ∈
        (rowMismatches true (some false) oversizeDiscountRow).map Mismatch.kind ↔
      normTemplate oversizeDiscountRow.templateSuffix ≠ expectedTemplate true oversizeDiscountRow) :=
  ⟨(expected_template_priority true (some false) oversizeDiscountRow).1 (by decide),
   (expected_template_priority true (some false) oversizeDiscountRow).2.2.2.2.1⟩

theorem price_and_promo_rules_witness :
    Kind.price ∈ (rowMismatches false none priceDiffRow).map Mismatch.kind :=
  ((price_and_promo_rules false none priceDiffRow).2.1).mpr
    ⟨10, 12, rfl, rfl, by norm_num⟩

/-! ### C3: clearance tag consistency on a clearance feed -/

theorem floatEq_false_of_realDiscount {r : MatchedRow} (h : realDiscount r = true) :
    floatEq r.priceCsv r.compareAtPriceCsv = false := by
  unfold realDiscount realDiscountCore at h
  unfold floatEq
  rcases hc : r.compareAtPriceCsv with _ | c <;> rcases hp : r.priceCsv with _ | p <;>
    simp_all [hc, hp]
  exact ne_of_lt h

/-- Claim C3, amended: on a clearance feed, a row whose source price equals
its source list price, whose *present* grouping key has no sibling with
a source discount, and which the platform marks as clearance (tag or
template) yields `clearance_price_mismatch`; a row with a real discount
and no platform clearance tag yields `missing_clearance_tag`.  (A row
whose grouping key is absent never yields `clearance_price_mismatch`:
pandas gives such rows a NaN group signal, which is truthy, so the
sibling-override test suppresses the check — see the counterexample.) -/
theorem clearance_tag_consistency (rows : List MatchedRow) (r : MatchedRow) :
    (∀ h p, r.handleCsv = some h → r.priceCsv = some p → r.compareAtPriceCsv = some p →
      (∀ r' ∈ rows, r'.handleCsv = some h → hasDiscountCsv r' = false) →
      ("clearance".data ∈ shopTags r ∨ normTemplate r.templateSuffix = "clearance".data) →
      Kind.clearance_price_mismatch ∈
        (rowMismatches true (parentDiscountOf rows r) r).map Mismatch.kind) ∧
    (realDiscount r = true → "clearance".data ∉ shopTags r →
      Kind.missing_clearance_tag ∈
        (rowMismatches true (parentDiscountOf rows r) r).map Mismatch.kind) := by
  constructor
  · intro h p hh hp hc hsib hflag
    have hg : groupDiscount rows h = false := by
      unfold groupDiscount
      rw [List.any_eq_false]
      intro r' hr'
      by_cases hh' : r'.handleCsv = some h
      · simp [hh', hsib r' hr' hh']
      · simp [hh']
    have hpd : parentDiscountOf rows r = some false := by
      unfold parentDiscountOf
      rw [hh]
      simp [hg]
    have heq : floatEq r.priceCsv r.compareAtPriceCsv = true := by
      rw [hp, hc]
      simp [floatEq]
    rw [List.mem_map]
    exact ⟨⟨Kind.clearance_price_mismatch, none⟩,
      mem_rowMismatches.mpr (Or.inr (Or.inr (Or.inr (Or.inr (Or.inl
        (mem_clearanceCheck.mpr (Or.inl ⟨rfl, rfl, heq, hpd, hflag⟩))))))), rfl⟩
  · intro hd htag
    rw [List.mem_map]
    exact ⟨⟨Kind.missing_clearance_tag, none⟩,
      mem_rowMismatches.mpr (Or.inr (Or.inr (Or.inr (Or.inr (Or.inl
        (mem_clearanceCheck.mpr (Or.inr ⟨rfl, rfl, floatEq_false_of_realDiscount hd, htag⟩))))))),
      rfl⟩

/-- Counterexample to C3 as stated: on `blankHandleRow` every condition
of the claim's first branch holds (price equals list price, no sibling
row of its — absent — grouping key has a discount, platform tags include
clearance), yet no `clearance_price_mismatch` is emitted, because the
pandas NaN group signal of a NaN handle suppresses the check. -/
theorem clearance_price_mismatch_not_emitted_for_blank_handle :
    floatEq blankHandleRow.priceCsv blankHandleRow.compareAtPriceCsv = true ∧
    (∀ r' ∈ [blankHandleRow], hasDiscountCsv r' = false) ∧
    "clearance".data ∈ shopTags blankHandleRow ∧
    Kind.clearance_price_mismatch ∉
      (rowMismatches true (parentDiscountOf [blankHandleRow] blankHandleRow)
        blankHandleRow).map Mismatch.kind := by
  refine ⟨by decide, ?_, by decide, by decide⟩
  intro r' hr'
  simp only [List.mem_singleton] at hr'
  subst hr'
  decide

theorem clearance_tag_consistency_witness :
    Kind.clearance_price_mismatch ∈
      (rowMismatches true (parentDiscountOf [keyedHandleRow] keyedHandleRow)
        keyedHandleRow).map Mismatch.kind ∧
    Kind.missing_clearance_tag ∈
      (rowMismatches true
        (parentDiscountOf [keyedHandleRow] { keyedHandleRow with
          priceCsv := some 8, tagsShopify := some "" })
        { keyedHandleRow with priceCsv := some 8, tagsShopify := some "" }).map Mismatch.kind :=
  ⟨(clearance_tag_consistency [keyedHandleRow] keyedHandleRow).1 "widget-a" 10 rfl rfl rfl
      (by decide) (by decide),
    (clearance_tag_consistency [keyedHandleRow]
      { keyedHandleRow with priceCsv := some 8, tagsShopify := some "" }).2
        (by decide) (by decide)⟩

theorem keys_setCell (rec : RowRecord) (k : String) (v : Option String) :
    (setCell rec k v).map Prod.fst = rec.map Prod.fst := by
  induction rec with
  | nil => rfl
  | cons p rest ih =>
    by_cases h : p.1 = k <;> simp [setCell, h, ih]

theorem getCell_setCell_same (rec : RowRecord) (k : String) (v : Option String) :
    getCell (setCell rec k v) k = (getCell rec k).map (fun _ => v) := by
  induction rec with
  | nil => rfl
  | cons p rest ih =>
    by_cases h : p.1 = k <;> simp [setCell, getCell, h, ih]

theorem getCell_setCell_other (rec : RowRecord) (k k' : String) (v : Option String)
    (h : k' ≠ k) : getCell (setCell rec k v) k' = getCell rec k' := by
  induction rec with
  | nil => rfl
  | cons p rest ih =>
    by_cases hp : p.1 = k
    · have : k ≠ k' := fun he => h he.symm
      simp [setCell, getCell, hp, this, ih]
    · by_cases hp' : p.1 = k' <;> simp [setCell, getCell, hp, hp', h, ih]

/-- Claim C6, amended: every source column is carried through (same columns,
and all cells other than `type` and `title` unchanged); a blank `type`
is replaced by the value of the `product_type` column whenever that
column exists — even when its value is also blank — falling back to
`category` (then `""`) only when the `product_type` column itself is
absent; a blank `title` is replaced by `"Product "` followed by the
rendered `sku` cell. -/
theorem missing_record_fallbacks (rec : RowRecord) :
    ((buildMissingRecord rec).map Prod.fst = rec.map Prod.fst) ∧
    (∀ k, k ≠ "type" → k ≠ "title" →
      getCell (buildMissingRecord rec) k = getCell rec k) ∧
    (∀ v, getCell rec "type" = some v → isBlankCell v = true →
      getCell (buildMissingRecord rec) "type" =
        some (getCellD rec "product_type" (getCellD rec "category" (some "")))) ∧
    (∀ v, getCell rec "type" = some v → isBlankCell v = false →
      getCell (buildMissingRecord rec) "type" = some v) ∧
    (∀ v, getCell rec "title" = some v → isBlankCell v = true →
      getCell (buildMissingRecord rec) "title" =
        some (some ("Product " ++ skuDisplay rec))) ∧
    (∀ v, getCell rec "title" = some v → isBlankCell v = false →
      getCell (buildMissingRecord rec) "title" = some v) := by
  have hTy : ∀ rec' : RowRecord, (applyTypeFallback rec').map Prod.fst = rec'.map Prod.fst := by
    intro rec'
    unfold applyTypeFallback
    split
    · split
      · exact keys_setCell rec' "type" _
      · rfl
    · rfl
  have hTi : ∀ rec' : RowRecord, (applyTitleFallback rec').map Prod.fst = rec'.map Prod.fst := by
    intro rec'
    unfold applyTitleFallback
    split
    · split
      · exact keys_setCell rec' "title" _
      · rfl
    · rfl
  have hTyCell : ∀ (rec' : RowRecord) k, k ≠ "type" →
      getCell (applyTypeFallback rec') k = getCell rec' k := by
    intro rec' k hk
    unfold applyTypeFallback
    split
    · split
      · exact getCell_setCell_other rec' "type" k _ hk
      · rfl
    · rfl
  have hTiCell : ∀ (rec' : RowRecord) k, k ≠ "title" →
      getCell (applyTitleFallback rec') k = getCell rec' k := by
    intro rec' k hk
    unfold applyTitleFallback
    split
    · split
      · exact getCell_setCell_other rec' "title" k _ hk
      · rfl
    · rfl
  refine ⟨?_, ?_, ?_, ?_, ?_, ?_⟩
  · unfold buildMissingRecord
    rw [hTi, hTy]
  · intro k hk₁ hk₂
    unfold buildMissingRecord
    rw [hTiCell _ k hk₂, hTyCell _ k hk₁]
  · intro v hv hb
    unfold buildMissingRecord
    rw [hTiCell _ "type" (by decide)]
    unfold applyTypeFallback
    rw [hv]
    simp only [hb, if_true]
    rw [getCell_setCell_same, hv]
    rfl
  · intro v hv hb
    unfold buildMissingRecord
    rw [hTiCell _ "type" (by decide)]
    unfold applyTypeFallback
    rw [hv]
    simp [hb, hv]
  · intro v hv hb
    unfold buildMissingRecord
    have hvTy : getCell (applyTypeFallback rec) "title" = some v := by
      rw [hTyCell _ "title" (by decide)]
      exact hv
    have hsku : skuDisplay (applyTypeFallback rec) = skuDisplay rec := by
      unfold skuDisplay
      rw [hTyCell _ "sku" (by decide)]
    unfold applyTitleFallback
    rw [hvTy]
    simp only [hb, if_true]
    rw [getCell_setCell_same, hvTy, hsku]
    rfl
  · intro v hv hb
    unfold buildMissingRecord
    have hvTy : getCell (applyTypeFallback rec) "title" = some v := by
      rw [hTyCell _ "title" (by decide)]
      exact hv
    unfold applyTitleFallback
    rw [hvTy]
    simp [hb, hvTy]

/-- Counterexample to C6 as stated: `type` and `product_type` are blank
and `category` is `"Shoes"`, so the claim requires the carried `type` to
be `"Shoes"`; the code instead copies the blank `product_type` (the
`category` fallback only fires when the `product_type` *column* is
absent, because `record.get('product_type', ...)` falls through on a
missing key, not on a blank value). -/
theorem missing_type_category_fallback_not_taken :
    getCell blankTypeRecord "type" = some none ∧
    isBlankCell none = true ∧
    getCell blankTypeRecord "product_type" = some none ∧
    getCell blankTypeRecord "category" = some (some "Shoes") ∧
    getCell (buildMissingRecord blankTypeRecord) "type" = some none ∧
    getCell (buildMissingRecord blankTypeRecord) "type" ≠ some (some "Shoes") := by
  decide

theorem missing_record_fallbacks_witness :
    getCell (buildMissingRecord blankTitleRecord) "type" = some (some "Boots") ∧
    getCell (buildMissingRecord blankTitleRecord) "title" = some (some "Product B2") ∧
    getCell (buildMissingRecord blankTitleRecord) "sku" = some (some "B2") :=
  ⟨by
    rw [(missing_record_fallbacks blankTitleRecord).2.2.1 (some "") (by decide) (by decide)]
    decide,
   by
    rw [(missing_record_fallbacks blankTitleRecord).2.2.2.2.1 (some " ") (by decide) (by decide)]
    decide,
   by
    rw [(missing_record_fallbacks blankTitleRecord).2.1 "sku" (by decide) (by decide)]
    decide⟩

theorem openMatch_none_of_not_tri {l : List Char} (h : startsOpenTri l = false) :
    openMatch l = none := by
  unfold openMatch
  unfold startsOpenTri at h
  rcases l with _ | ⟨a, _ | ⟨b, _ | ⟨c, rest⟩⟩⟩ <;> simp_all

theorem closeMatch_none_of_not_pat {l : List Char} (h : startsClosePat l = false) :
    closeMatch l = none := by
  unfold closeMatch
  unfold startsClosePat at h
  rcases l with _ | ⟨a, _ | ⟨b, _ | ⟨c, _ | ⟨d, _ | ⟨e, rest⟩⟩⟩⟩⟩ <;> simp_all

theorem cleanOpen_short {l : List Char} (h : l.length ≤ 2) : cleanOpen l = true := by
  rcases l with _ | ⟨a, _ | ⟨b, _ | ⟨c, rest⟩⟩⟩ <;> simp_all [cleanOpen, startsOpenTri]

theorem cleanClose_short {l : List Char} (h : l.length ≤ 4) : cleanClose l = true := by
  rcases l with _ | ⟨a, _ | ⟨b, _ | ⟨c, _ | ⟨d, _ | ⟨e, rest⟩⟩⟩⟩⟩ <;>
    simp_all [cleanClose, startsClosePat]

theorem startsOpenTri_append_take (c : Char) (s r : List Char) :
    startsOpenTri (c :: (s ++ r)) = startsOpenTri (c :: (s ++ r.take 2)) := by
  rcases s with _ | ⟨a, _ | ⟨b, s'⟩⟩
  · rcases r with _ | ⟨x, _ | ⟨y, ys⟩⟩ <;> rfl
  · rcases r with _ | ⟨x, xs⟩ <;> rfl
  · rfl

theorem startsClosePat_append_take (c : Char) (s r : List Char) :
    startsClosePat (c :: (s ++ r)) = startsClosePat (c :: (s ++ r.take 4)) := by
  rcases s with _ | ⟨a, _ | ⟨b, _ | ⟨d, _ | ⟨e, s'⟩⟩⟩⟩
  · rcases r with _ | ⟨x, _ | ⟨y, _ | ⟨z, _ | ⟨w, ws⟩⟩⟩⟩ <;> rfl
  · rcases r with _ | ⟨x, _ | ⟨y, _ | ⟨z, zs⟩⟩⟩ <;> rfl
  · rcases r with _ | ⟨x, _ | ⟨y, ys⟩⟩ <;> rfl
  · rcases r with _ | ⟨x, xs⟩ <;> rfl
  · rfl

/-- A scan never rewrites inside text that is free of `<h1` occurrences
(the first two characters of the continuation are enough to rule out a
match spilling over the boundary). -/
theorem fixOpen_append_clean (s r : List Char) (hc : cleanOpen (s ++ r.take 2) = true) :
    fixOpen (s ++ r) = s ++ fixOpen r := by
  induction s with
  | nil => simp
  | cons c s' ih =>
    rw [List.cons_append] at hc
    unfold cleanOpen at hc
    rw [Bool.and_eq_true, Bool.not_eq_true'] at hc
    obtain ⟨h₁, h₂⟩ := hc
    have htri : startsOpenTri (c :: (s' ++ r)) = false := by
      rw [startsOpenTri_append_take]
      exact h₁
    have hnone := openMatch_none_of_not_tri htri
    rw [List.cons_append, fixOpen_eq, hnone]
    simp only
    rw [ih h₂]
    rfl

theorem fixClose_append_clean (s r : List Char) (hc : cleanClose (s ++ r.take 4) = true) :
    fixClose (s ++ r) = s ++ fixClose r := by
  induction s with
  | nil => simp
  | cons c s' ih =>
    rw [List.cons_append] at hc
    unfold cleanClose at hc
    rw [Bool.and_eq_true, Bool.not_eq_true'] at hc
    obtain ⟨h₁, h₂⟩ := hc
    have hpat : startsClosePat (c :: (s' ++ r)) = false := by
      rw [startsClosePat_append_take]
      exact h₁
    have hnone := closeMatch_none_of_not_pat hpat
    rw [List.cons_append, fixClose_eq, hnone]
    simp only
    rw [ih h₂]
    rfl

theorem takeWhile_until_gt (attrs r : List Char) (h : attrs.all (fun c => c ≠ '>') = true) :
    (attrs ++ '>' :: r).takeWhile (fun x => x ≠ '>') = attrs := by
  induction attrs with
  | nil => simp [List.takeWhile]
  | cons a as ih =>
    rw [List.all_cons, Bool.and_eq_true] at h
    simp only [List.cons_append, List.takeWhile_cons, h.1, if_true]
    rw [ih h.2]

theorem drop_past_gt (attrs r : List Char) :
    (attrs ++ '>' :: r).drop (attrs.length + 1) = r := by
  induction attrs with
  | nil => simp
  | cons a as ih => simp [ih]

/-- The `<h1 ...>` tag itself is matched, its attributes captured. -/
theorem openMatch_tag (attrs r : List Char) (hgt : attrs.all (fun c => c ≠ '>') = true)
    (hhd : (match attrs.head? with
            | some hd => !isWordChar hd
            | none => true) = true) :
    openMatch ('<' :: 'h' :: '1' :: (attrs ++ '>' :: r)) = some (attrs, r) := by
  have hb : boundaryOk (attrs ++ '>' :: r) = true := by
    unfold boundaryOk
    cases attrs with
    | nil => rfl
    | cons a as => simpa using hhd
  have hlt : (( attrs ++ '>' :: r).takeWhile (fun x => x ≠ '>')).length <
      (attrs ++ '>' :: r).length := by
    rw [takeWhile_until_gt attrs r hgt]
    simp
  unfold openMatch
  dsimp only
  rw [if_pos ⟨rfl, Or.inl rfl, rfl, hb⟩, if_pos hlt, takeWhile_until_gt attrs r hgt,
    drop_past_gt]

theorem fixOpen_tag (attrs r : List Char) (hgt : attrs.all (fun c => c ≠ '>') = true)
    (hhd : (match attrs.head? with
            | some hd => !isWordChar hd
            | none => true) = true) :
    fixOpen ('<' :: 'h' :: '1' :: (attrs ++ '>' :: r)) =
      '<' :: 'h' :: '2' :: (attrs ++ '>' :: fixOpen r) := by
  rw [fixOpen_eq, openMatch_tag attrs r hgt hhd]

/-- `</h1>` is untouched by the opening-tag pass, whatever follows. -/
theorem fixOpen_closeTag (r : List Char) :
    fixOpen ('<' :: '/' :: 'h' :: '1' :: '>' :: r) =
      '<' :: '/' :: 'h' :: '1' :: '>' :: fixOpen r := by
  have hc : cleanOpen (['<', '/', 'h', '1', '>'] ++ r.take 2) = true := by
    rcases r with _ | ⟨x, _ | ⟨y, ys⟩⟩ <;>
      simp [cleanOpen, startsOpenTri]
  simpa using fixOpen_append_clean ['<', '/', 'h', '1', '>'] r hc

theorem closeMatch_tag (r : List Char) :
    closeMatch ('<' :: '/' :: 'h' :: '1' :: '>' :: r) = some r := by
  unfold closeMatch
  dsimp only
  rw [if_pos ⟨rfl, rfl, Or.inl rfl, rfl, rfl⟩]

theorem fixClose_closeTag (r : List Char) :
    fixClose ('<' :: '/' :: 'h' :: '1' :: '>' :: r) =
      '<' :: '/' :: 'h' :: '2' :: '>' :: fixClose r := by
  rw [fixClose_eq, closeMatch_tag]

theorem cleanOpen_cons_of {c : Char} {cs : List Char}
    (h₁ : startsOpenTri (c :: cs) = false) (h₂ : cleanOpen cs = true) :
    cleanOpen (c :: cs) = true := by
  unfold cleanOpen
  rw [h₁, h₂]
  rfl

theorem cleanClose_cons_of {c : Char} {cs : List Char}
    (h₁ : startsClosePat (c :: cs) = false) (h₂ : cleanClose cs = true) :
    cleanClose (c :: cs) = true := by
  unfold cleanClose
  rw [h₁, h₂]
  rfl

/-- Clean text stays clean (for the opening pattern) when at most two
characters of a continuation that is empty or starts with `<` are
appended. -/
theorem cleanOpen_append_of (s r : List Char) (hs : cleanOpen s = true)
    (hr : r = [] ∨ ∃ t, r = '<' :: t) : cleanOpen (s ++ r.take 2) = true := by
  induction s with
  | nil =>
    apply cleanOpen_short
    simp only [List.nil_append, List.length_take]
    omega
  | cons c s' ih =>
    unfold cleanOpen at hs
    rw [Bool.and_eq_true, Bool.not_eq_true'] at hs
    obtain ⟨h₁, h₂⟩ := hs
    rw [List.cons_append]
    refine cleanOpen_cons_of ?_ (ih h₂)
    rcases s' with _ | ⟨a, _ | ⟨b, s''⟩⟩
    · rcases hr with rfl | ⟨t, rfl⟩
      · rfl
      · rcases t with _ | ⟨u, us⟩ <;> simp [startsOpenTri]
    · rcases hr with rfl | ⟨t, rfl⟩
      · rfl
      · simp [startsOpenTri]
    · exact h₁

theorem cleanClose_append_of (s r : List Char) (hs : cleanClose s = true)
    (hr : r = [] ∨ ∃ t, r = '<' :: t) : cleanClose (s ++ r.take 4) = true := by
  induction s with
  | nil =>
    apply cleanClose_short
    simp only [List.nil_append, List.length_take]
    omega
  | cons c s' ih =>
    unfold cleanClose at hs
    rw [Bool.and_eq_true, Bool.not_eq_true'] at hs
    obtain ⟨h₁, h₂⟩ := hs
    rw [List.cons_append]
    refine cleanClose_cons_of ?_ (ih h₂)
    rcases s' with _ | ⟨a, _ | ⟨b, _ | ⟨d, _ | ⟨e, s''⟩⟩⟩⟩
    · rcases hr with rfl | ⟨t, rfl⟩
      · rfl
      · rcases t with _ | ⟨u, _ | ⟨v, _ | ⟨w, ws⟩⟩⟩ <;> simp [startsClosePat]
    · rcases hr with rfl | ⟨t, rfl⟩
      · rfl
      · rcases t with _ | ⟨u, _ | ⟨v, vs⟩⟩ <;> simp [startsClosePat]
    · rcases hr with rfl | ⟨t, rfl⟩
      · rfl
      · rcases t with _ | ⟨u, us⟩ <;> simp [startsClosePat]
    · rcases hr with rfl | ⟨t, rfl⟩
      · rfl
      · simp [startsClosePat]
    · exact h₁

/-- Text ending in `>` that is free of `</h1>` stays free of it when at
most four characters are appended. -/
theorem cleanClose_gtend_append (attrs r : List Char)
    (h : cleanClose (attrs ++ ['>']) = true) :
    cleanClose ((attrs ++ ['>']) ++ r.take 4) = true := by
  induction attrs with
  | nil =>
    rw [List.nil_append, List.cons_append]
    refine cleanClose_cons_of ?_ (cleanClose_short (by simp [List.length_take]))
    rcases r with _ | ⟨x, _ | ⟨y, _ | ⟨z, _ | ⟨w, ws⟩⟩⟩⟩ <;> simp [startsClosePat]
  | cons a as ih =>
    rw [List.cons_append] at h
    unfold cleanClose at h
    rw [Bool.and_eq_true, Bool.not_eq_true'] at h
    obtain ⟨h₁, h₂⟩ := h
    rw [List.cons_append, List.cons_append]
    refine cleanClose_cons_of ?_ (ih h₂)
    rcases as with _ | ⟨x, _ | ⟨y, _ | ⟨z, as'⟩⟩⟩
    · rcases r with _ | ⟨u, _ | ⟨v, _ | ⟨w, ws⟩⟩⟩ <;> simp [startsClosePat]
    · rcases r with _ | ⟨u, _ | ⟨v, vs⟩⟩ <;> simp [startsClosePat]
    · rcases r with _ | ⟨u, us⟩ <;> simp [startsClosePat]
    · rcases as' with _ | ⟨w, ws⟩
      · exact h₁
      · exact h₁

/-- The rewritten opening tag `<h2 ...>` is untouched by the closing-tag
pass, whatever follows. -/
theorem fixClose_h2tag (attrs r : List Char) (hcc : cleanClose (attrs ++ ['>']) = true) :
    fixClose (('<' :: 'h' :: '2' :: (attrs ++ ['>'])) ++ r) =
      ('<' :: 'h' :: '2' :: (attrs ++ ['>'])) ++ fixClose r := by
  apply fixClose_append_clean
  simp only [List.cons_append]
  refine cleanClose_cons_of ?_ (cleanClose_cons_of ?_ (cleanClose_cons_of ?_
    (cleanClose_gtend_append attrs r hcc)))
  · rcases attrs with _ | ⟨x, _ | ⟨y, ys⟩⟩ <;>
      rcases r with _ | ⟨u, us⟩ <;> simp [startsClosePat]
  · rcases attrs with _ | ⟨x, _ | ⟨y, _ | ⟨z, zs⟩⟩⟩ <;>
      rcases r with _ | ⟨u, _ | ⟨v, vs⟩⟩ <;> simp [startsClosePat]
  · rcases attrs with _ | ⟨x, _ | ⟨y, _ | ⟨z, _ | ⟨w, ws⟩⟩⟩⟩ <;>
      rcases r with _ | ⟨u, _ | ⟨v, _ | ⟨w₂, ws₂⟩⟩⟩ <;> simp [startsClosePat]

theorem noTxtTxt_tail {t : HtmlSeg} {ts : List HtmlSeg}
    (h : noTxtTxt (t :: ts) = true) : noTxtTxt ts = true := by
  cases ts with
  | nil => rfl
  | cons u us => cases t <;> cases u <;> simp_all [noTxtTxt]

/-- After a text segment, a well-formed decomposition continues with a
tag (or ends), so the rendered continuation is empty or starts `<`. -/
theorem renderSegs_shape {s : List Char} {ts : List HtmlSeg}
    (h : noTxtTxt (HtmlSeg.txt s :: ts) = true) :
    renderSegs ts = [] ∨ ∃ t, renderSegs ts = '<' :: t := by
  cases ts with
  | nil => exact Or.inl rfl
  | cons u us =>
    cases u with
    | txt s' => simp [noTxtTxt] at h
    | h1open attrs => exact Or.inr ⟨_, rfl⟩
    | h1close => exact Or.inr ⟨_, rfl⟩

theorem renderMid_shape {s : List Char} {ts : List HtmlSeg}
    (h : noTxtTxt (HtmlSeg.txt s :: ts) = true) :
    renderMid ts = [] ∨ ∃ t, renderMid ts = '<' :: t := by
  cases ts with
  | nil => exact Or.inl rfl
  | cons u us =>
    cases u with
    | txt s' => simp [noTxtTxt] at h
    | h1open attrs => exact Or.inr ⟨_, rfl⟩
    | h1close => exact Or.inr ⟨_, rfl⟩

theorem segsWF_tail {t : HtmlSeg} {ts : List HtmlSeg} (h : segsWF (t :: ts) = true) :
    segWFb t = true ∧ segsWF ts = true := by
  unfold segsWF at h ⊢
  rw [Bool.and_eq_true] at h
  obtain ⟨hall, hadj⟩ := h
  rw [List.all_cons, Bool.and_eq_true] at hall
  rw [Bool.and_eq_true]
  exact ⟨hall.1, hall.2, noTxtTxt_tail hadj⟩

/-- The opening-tag pass on a well-formed decomposition: every `<h1 ...>`
becomes `<h2 ...>`, text and closing tags are untouched. -/
theorem fixOpen_renderSegs : ∀ toks : List HtmlSeg, segsWF toks = true →
    fixOpen (renderSegs toks) = renderMid toks := by
  intro toks
  induction toks with
  | nil => intro _; rfl
  | cons t ts ih =>
    intro hwf
    have hadj : noTxtTxt (t :: ts) = true := by
      unfold segsWF at hwf
      exact (Bool.and_eq_true _ _ |>.mp hwf).2
    obtain ⟨hseg, hwf'⟩ := segsWF_tail hwf
    cases t with
    | txt s =>
      unfold segWFb at hseg
      rw [Bool.and_eq_true] at hseg
      show fixOpen (s ++ renderSegs ts) = s ++ renderMid ts
      rw [fixOpen_append_clean s _ (cleanOpen_append_of s _ hseg.1 (renderSegs_shape hadj)),
        ih hwf']
    | h1open attrs =>
      unfold segWFb at hseg
      rw [Bool.and_eq_true, Bool.and_eq_true] at hseg
      obtain ⟨⟨hgt, hhd⟩, -⟩ := hseg
      show fixOpen ('<' :: 'h' :: '1' :: ((attrs ++ ['>']) ++ renderSegs ts)) = _
      rw [List.append_assoc, List.singleton_append]
      rw [fixOpen_tag attrs _ hgt hhd, ih hwf']
      show _ = '<' :: 'h' :: '2' :: ((attrs ++ ['>']) ++ renderMid ts)
      rw [List.append_assoc, List.singleton_append]
    | h1close =>
      show fixOpen ('<' :: '/' :: 'h' :: '1' :: '>' :: renderSegs ts) = _
      rw [fixOpen_closeTag, ih hwf']
      rfl

/-- The closing-tag pass on the intermediate form: every `</h1>` becomes
`</h2>`, text and the already-rewritten `<h2 ...>` tags are untouched. -/
theorem fixClose_renderMid : ∀ toks : List HtmlSeg, segsWF toks = true →
    fixClose (renderMid toks) = renderFixed toks := by
  intro toks
  induction toks with
  | nil => intro _; rfl
  | cons t ts ih =>
    intro hwf
    have hadj : noTxtTxt (t :: ts) = true := by
      unfold segsWF at hwf
      exact (Bool.and_eq_true _ _ |>.mp hwf).2
    obtain ⟨hseg, hwf'⟩ := segsWF_tail hwf
    cases t with
    | txt s =>
      unfold segWFb at hseg
      rw [Bool.and_eq_true] at hseg
      show fixClose (s ++ renderMid ts) = s ++ renderFixed ts
      rw [fixClose_append_clean s _ (cleanClose_append_of s _ hseg.2 (renderMid_shape hadj)),
        ih hwf']
    | h1open attrs =>
      unfold segWFb at hseg
      rw [Bool.and_eq_true, Bool.and_eq_true] at hseg
      obtain ⟨-, hcc⟩ := hseg
      show fixClose (('<' :: 'h' :: '2' :: (attrs ++ ['>'])) ++ renderMid ts) = _
      rw [fixClose_h2tag attrs _ hcc, ih hwf']
      rfl
    | h1close =>
      show fixClose ('<' :: '/' :: 'h' :: '1' :: '>' :: renderMid ts) = _
      rw [fixClose_closeTag, ih hwf']
      rfl

/-- Claim C8.  For a description that triggers the H1 check and decomposes into
well-formed segments, the emitted `h1_in_description` record carries the
corrected HTML, and that corrected HTML is exactly the input with every
opening `<h1 ...>` rewritten to `<h2 ...>` (attributes unchanged), every
`</h1>` rewritten to `</h2>`, and all text segments identical. -/
theorem h1_rewrite_preserves_structure (clr : Bool) (pd : Option Bool) (r : MatchedRow)
    (toks : List HtmlSeg) (d : String) (hd : r.descriptionHtml = some d)
    (hrender : d.data = renderSegs toks) (hwf : segsWF toks = true)
    (hm : hasOpenMatch d.data = true) :
    (⟨Kind.h1_in_description, some (fixDescriptionHtml d)⟩ ∈ rowMismatches clr pd r) ∧
    (fixDescriptionHtml d).data = renderFixed toks := by
  constructor
  · exact mem_rowMismatches.mpr (Or.inr (Or.inr (Or.inr (Or.inr (Or.inr
      (mem_h1Check.mpr ⟨d, hd, hm, rfl⟩))))))
  · show fixClose (fixOpen d.data) = renderFixed toks
    rw [hrender, fixOpen_renderSegs toks hwf, fixClose_renderMid toks hwf]

theorem h1_rewrite_preserves_structure_witness :
    (⟨Kind.h1_in_description, some (fixDescriptionHtml sampleDesc)⟩ ∈
      rowMismatches false none sampleRow) ∧
    (fixDescriptionHtml sampleDesc).data = renderFixed sampleSegs :=
  h1_rewrite_preserves_structure false none sampleRow sampleSegs sampleDesc rfl rfl
    (by decide) (by decide)

/-- Counterexample to C7 as stated: the reconciliation pass does *not*
leave the caller's tables unchanged — it appends a `sku_lower` column
and coerces the price cell `"$1,000"` to the number `1000` in place. -/
theorem check_mismatches_mutates_inputs :
    checkMismatchesEffect csvNumericCols srcTable ≠ srcTable ∧
    (checkMismatchesEffect csvNumericCols srcTable).cols = ["sku", "price", "sku_lower"] ∧
    (checkMismatchesEffect csvNumericCols srcTable).rows =
      [[("sku", Cell.text "ABC"), ("price", Cell.num 1000), ("sku_lower", Cell.text "abc")]] := by
  refine ⟨?_, by decide, by decide⟩
  intro h
  have := congrArg Table.cols h
  simp [checkMismatchesEffect, srcTable] at this

theorem findCell_mapCol_other (row : List (String × Cell)) (k k' : String) (f : Cell → Cell)
    (h : k' ≠ k) : findCell (mapCol row k f) k' = findCell row k' := by
  induction row with
  | nil => rfl
  | cons p rest ih =>
    unfold mapCol at ih
    by_cases hp : p.1 = k
    · have hkk : k ≠ k' := fun he => h he.symm
      simp [mapCol, findCell, hp, hkk, ih]
    · by_cases hp' : p.1 = k' <;> simp [mapCol, findCell, hp, hp', h, ih]

theorem findCell_append_single_other (row : List (String × Cell)) (k k' : String) (v : Cell)
    (h : k' ≠ k) : findCell (row ++ [(k, v)]) k' = findCell row k' := by
  induction row with
  | nil => simp [findCell, Ne.symm h]
  | cons p rest ih =>
    by_cases hp : p.1 = k' <;> simp [findCell, hp, ih]

theorem findCell_putCell_other (row : List (String × Cell)) (k k' : String) (v : Cell)
    (h : k' ≠ k) : findCell (putCell row k v) k' = findCell row k' := by
  unfold putCell
  split
  · exact findCell_append_single_other row k k' v h
  · exact findCell_mapCol_other row k k' _ h

theorem findCell_normalizeRow_other (numCols cols : List String)
    (row : List (String × Cell)) (k : String) (h₁ : k ≠ "sku_lower") (h₂ : k ∉ numCols) :
    findCell (normalizeRow numCols cols row) k = findCell row k := by
  unfold normalizeRow
  have base := findCell_putCell_other row "sku_lower" k (skuLowerCell row) h₁
  revert base
  generalize putCell row "sku_lower" (skuLowerCell row) = row₀
  intro base
  induction numCols generalizing row₀ with
  | nil => exact base
  | cons c cs ih =>
    rw [List.mem_cons, not_or] at h₂
    simp only [List.foldl_cons]
    apply ih h₂.2
    split
    · rw [findCell_mapCol_other row₀ c k coerceCell h₂.1]
      exact base
    · exact base

/-- Claim C7, amended: the reconciliation pass mutates its input tables, but
only in its normalization step: each table gains a `sku_lower` column,
and the cells of the numeric columns (`price`, `compareAtPrice`,
`inventory` / `inventoryQuantity`) are coerced in place; the row count
and every other column's cells are unchanged. -/
theorem check_mismatches_mutation_frame (t : Table) (h : "sku_lower" ∉ t.cols) :
    (checkMismatchesEffect csvNumericCols t).cols = t.cols ++ ["sku_lower"] ∧
    (checkMismatchesEffect shopifyNumericCols t).cols = t.cols ++ ["sku_lower"] ∧
    (checkMismatchesEffect csvNumericCols t).rows.length = t.rows.length ∧
    (checkMismatchesEffect shopifyNumericCols t).rows.length = t.rows.length ∧
    (∀ row k, k ≠ "sku_lower" → k ∉ csvNumericCols →
      findCell (normalizeRow csvNumericCols t.cols row) k = findCell row k) ∧
    (∀ row k, k ≠ "sku_lower" → k ∉ shopifyNumericCols →
      findCell (normalizeRow shopifyNumericCols t.cols row) k = findCell row k) := by
  refine ⟨?_, ?_, ?_, ?_, ?_, ?_⟩
  · simp [checkMismatchesEffect, h]
  · simp [checkMismatchesEffect, h]
  · simp [checkMismatchesEffect]
  · simp [checkMismatchesEffect]
  · intro row k h₁ h₂
    exact findCell_normalizeRow_other csvNumericCols t.cols row k h₁ h₂
  · intro row k h₁ h₂
    exact findCell_normalizeRow_other shopifyNumericCols t.cols row k h₁ h₂

theorem check_mismatches_mutation_frame_witness :
    (checkMismatchesEffect csvNumericCols srcTable).cols = ["sku", "price"] ++ ["sku_lower"] ∧
    findCell (normalizeRow csvNumericCols srcTable.cols
      [("sku", Cell.text "ABC"), ("price", Cell.text "$1,000")]) "sku" =
      Cell.text "ABC" :=
  ⟨(check_mismatches_mutation_frame srcTable (by decide)).1,
   by
    rw [(check_mismatches_mutation_frame srcTable (by decide)).2.2.2.2.1
      [("sku", Cell.text "ABC"), ("price", Cell.text "$1,000")] "sku" (by decide) (by decide)]
    decide⟩

/-- Claim C9.  Every creation candidate belongs to exactly one creation group
(the one keyed by its effective handle); a row with an absent or
blank/whitespace grouping key is keyed by its own business key; hence
two rows that both lack a grouping key but have different business keys
are never grouped together. -/
theorem creation_grouping (rows : List CreationRow) :
    (∀ r k, r ∈ creationGroup rows k ↔ (r ∈ rows ∧ effectiveHandle r = k)) ∧
    (∀ r k₁ k₂, r ∈ creationGroup rows k₁ → r ∈ creationGroup rows k₂ → k₁ = k₂) ∧
    (∀ r : CreationRow, (r.handle = none ∨ ∃ h, r.handle = some h ∧ trimChars h.data = []) →
      effectiveHandle r = r.sku) ∧
    (∀ r₁ r₂ : CreationRow,
      (r₁.handle = none ∨ ∃ h, r₁.handle = some h ∧ trimChars h.data = []) →
      (r₂.handle = none ∨ ∃ h, r₂.handle = some h ∧ trimChars h.data = []) →
      r₁.sku ≠ r₂.sku →
      ∀ k, ¬(r₁ ∈ creationGroup rows k ∧ r₂ ∈ creationGroup rows k)) := by
  have hmem : ∀ (r : CreationRow) k,
      r ∈ creationGroup rows k ↔ (r ∈ rows ∧ effectiveHandle r = k) := by
    intro r k
    unfold creationGroup
    rw [List.mem_filter]
    simp
  have hblank : ∀ r : CreationRow,
      (r.handle = none ∨ ∃ h, r.handle = some h ∧ trimChars h.data = []) →
      effectiveHandle r = r.sku := by
    intro r hr
    unfold effectiveHandle
    rcases hr with hr | ⟨h, hr, hb⟩ <;> rw [hr]
    simp [hb]
  refine ⟨hmem, ?_, hblank, ?_⟩
  · intro r k₁ k₂ h₁ h₂
    rw [hmem] at h₁ h₂
    rw [← h₁.2, h₂.2]
  · intro r₁ r₂ hb₁ hb₂ hsku k ⟨h₁, h₂⟩
    rw [hmem] at h₁ h₂
    apply hsku
    rw [← hblank r₁ hb₁, ← hblank r₂ hb₂, h₁.2, h₂.2]

theorem creation_grouping_witness :
    (⟨"SKU-1", none⟩ : CreationRow) ∈
      creationGroup [⟨"SKU-1", none⟩, ⟨"SKU-2", some " "⟩] "SKU-1" ∧
    effectiveHandle (⟨"SKU-2", some " "⟩ : CreationRow) = "SKU-2" ∧
    ¬((⟨"SKU-1", none⟩ : CreationRow) ∈
        creationGroup [⟨"SKU-1", none⟩, ⟨"SKU-2", some " "⟩] "SKU-1" ∧
      (⟨"SKU-2", some " "⟩ : CreationRow) ∈
        creationGroup [⟨"SKU-1", none⟩, ⟨"SKU-2", some " "⟩] "SKU-1") :=
  ⟨((creation_grouping [⟨"SKU-1", none⟩, ⟨"SKU-2", some " "⟩]).1 ⟨"SKU-1", none⟩ "SKU-1").mpr
      ⟨by decide, by decide⟩,
   (creation_grouping [⟨"SKU-1", none⟩, ⟨"SKU-2", some " "⟩]).2.2.1 ⟨"SKU-2", some " "⟩
      (Or.inr ⟨" ", rfl, by decide⟩),
   (creation_grouping [⟨"SKU-1", none⟩, ⟨"SKU-2", some " "⟩]).2.2.2 ⟨"SKU-1", none⟩
      ⟨"SKU-2", some " "⟩ (Or.inl rfl) (Or.inr ⟨" ", rfl, by decide⟩) (by decide) "SKU-1"⟩

/-! ### Error-map bookkeeping lemmas -/

theorem getErr_setErr_same (m : ErrMap) (k : Nat) (v : String) :
    getErr (setErr m k v) k = some v := by
  induction m with
  | nil => simp [setErr, getErr]
  | cons p rest ih =>
    by_cases hp : p.1 = k <;> simp [setErr, getErr, hp, ih]

theorem getErr_setErr_other (m : ErrMap) (k k' : Nat) (v : String) (h : k' ≠ k) :
    getErr (setErr m k v) k' = getErr m k' := by
  induction m with
  | nil => simp [setErr, getErr, Ne.symm h]
  | cons p rest ih =>
    by_cases hp : p.1 = k
    · simp [setErr, getErr, hp, Ne.symm h, ih]
    · by_cases hp' : p.1 = k' <;> simp [setErr, getErr, hp, hp', h, ih]

theorem keys_setErr {m : ErrMap} {k : Nat} {v : String} {p : Nat × String}
    (h : p ∈ setErr m k v) : p.1 = k ∨ p ∈ m := by
  induction m with
  | nil =>
    simp [setErr] at h
    subst h
    exact Or.inl rfl
  | cons q rest ih =>
    unfold setErr at h
    split at h
    · rcases List.mem_cons.mp h with rfl | h'
      · exact Or.inl rfl
      · exact Or.inr (List.mem_cons_of_mem q h')
    · rcases List.mem_cons.mp h with rfl | h'
      · exact Or.inr (List.mem_cons_self _ _)
      · rcases ih h' with hk | hm
        · exact Or.inl hk
        · exact Or.inr (List.mem_cons_of_mem q hm)

/-- Folding per-element `setErr` writes only keys drawn from the list. -/
theorem mem_foldl_setErr {α : Type} (key : α → Nat) (val : ErrMap → α → String) :
    ∀ (l : List α) (m : ErrMap) (p : Nat × String),
      p ∈ l.foldl (fun m x => setErr m (key x) (val m x)) m →
      (∃ x ∈ l, key x = p.1) ∨ p ∈ m := by
  intro l
  induction l with
  | nil => exact fun m p h => Or.inr h
  | cons x xs ih =>
    intro m p h
    rcases ih _ p h with ⟨y, hy, hk⟩ | h'
    · exact Or.inl ⟨y, List.mem_cons_of_mem x hy, hk⟩
    · rcases keys_setErr h' with hk | hm
      · exact Or.inl ⟨x, List.mem_cons_self _ _, hk.symm⟩
      · exact Or.inr hm

theorem getErr_foldl_setErr_const {α : Type} (key : α → Nat) (v : String) :
    ∀ (l : List α) (m : ErrMap) (k : Nat),
      ((∃ x ∈ l, key x = k) ∨ getErr m k = some v) →
      getErr (l.foldl (fun m x => setErr m (key x) v) m) k = some v := by
  intro l
  induction l with
  | nil =>
    intro m k h
    rcases h with ⟨x, hx, -⟩ | h
    · exact absurd hx (List.not_mem_nil x)
    · exact h
  | cons x xs ih =>
    intro m k h
    rw [List.foldl_cons]
    apply ih
    rcases h with ⟨y, hy, hk⟩ | h
    · rcases List.mem_cons.mp hy with rfl | hy'
      · right
        show getErr (setErr m (key y) v) k = some v
        rw [hk]
        exact getErr_setErr_same m k v
      · exact Or.inl ⟨y, hy', hk⟩
    · by_cases hx : key x = k
      · right
        show getErr (setErr m (key x) v) k = some v
        rw [hx]
        exact getErr_setErr_same m k v
      · right
        show getErr (setErr m (key x) v) k = some v
        rw [getErr_setErr_other m (key x) k v (fun he => hx he.symm)]
        exact h

theorem mem_processPriceGroup {m : ErrMap} {g : List Nat}
    {resp : Except String (List UserError)} {p : Nat × String}
    (h : p ∈ processPriceGroup m g resp) : p.1 ∈ g ∨ p ∈ m := by
  match resp with
  | Except.error e =>
    unfold processPriceGroup at h
    dsimp only at h
    rcases mem_foldl_setErr (fun i => i) (fun _ _ => e) g m p h with ⟨x, hx, hk⟩ | h'
    · exact Or.inl (hk ▸ hx)
    · exact Or.inr h'
  | Except.ok ues =>
    unfold processPriceGroup at h
    dsimp only at h
    induction ues generalizing m with
    | nil => exact Or.inr h
    | cons ue rest ih =>
      rw [List.foldl_cons] at h
      rcases ih h with hg | h'
      · exact Or.inl hg
      · revert h'
        show p ∈ (match pricePathIndex ue.field with
          | some i =>
            if hc : 0 ≤ i ∧ i.toNat < g.length then
              setErr m (g.get ⟨i.toNat, hc.2⟩) ue.message
            else m
          | none =>
            g.foldl (fun m' idx => setErr m' idx (getErrD m' idx "" ++ ue.message ++ " | ")) m) →
          p.1 ∈ g ∨ p ∈ m
        cases hpi : pricePathIndex ue.field with
        | some i =>
          dsimp only
          intro h'
          split at h'
          · rcases keys_setErr h' with hk | hm
            · exact Or.inl (hk ▸ List.get_mem g _ _)
            · exact Or.inr hm
          · exact Or.inr h'
        | none =>
          dsimp only
          intro h'
          rcases mem_foldl_setErr (fun i => i)
              (fun m' idx => getErrD m' idx "" ++ ue.message ++ " | ") g m p h' with
            ⟨x, hx, hk⟩ | hm
          · exact Or.inl (hk ▸ hx)
          · exact Or.inr hm

theorem aliasToIdxGo_mem {base : String} :
    ∀ {i : Nat} {chunk : List FixRow} {idx : Nat},
      aliasToIdxGo base i chunk = some idx → ∃ r ∈ chunk, r.idx = idx := by
  intro i chunk
  induction chunk generalizing i with
  | nil => intro idx h; cases h
  | cons r rest ih =>
    intro idx h
    unfold aliasToIdxGo at h
    split at h
    · exact ⟨r, List.mem_cons_self _ _, Option.some.inj h⟩
    · obtain ⟨r', hr', hi⟩ := ih h
      exact ⟨r', List.mem_cons_of_mem r hr', hi⟩

theorem mem_processOtherChunk {m : ErrMap} {chunk : List FixRow}
    {resp : Except String (List (String × List String))} {p : Nat × String}
    (h : p ∈ processOtherChunk m chunk resp) : (∃ r ∈ chunk, r.idx = p.1) ∨ p ∈ m := by
  match resp with
  | Except.error e =>
    unfold processOtherChunk at h
    dsimp only at h
    rcases mem_foldl_setErr FixRow.idx (fun _ _ => e) chunk m p h with hx | h'
    · exact Or.inl hx
    · exact Or.inr h'
  | Except.ok entries =>
    unfold processOtherChunk at h
    dsimp only at h
    induction entries generalizing m with
    | nil => exact Or.inr h
    | cons entry rest ih =>
      rw [List.foldl_cons] at h
      rcases ih h with hg | h'
      · exact Or.inl hg
      · revert h'
        show p ∈ (if entry.2 ≠ [] then
            match aliasToIdx chunk entry.1 with
            | some idx => setErr m idx (getErrD m idx "" ++ joinComma entry.2 ++ " | ")
            | none => m
          else m) → (∃ r ∈ chunk, r.idx = p.1) ∨ p ∈ m
        split
        · cases ha : aliasToIdx chunk entry.1 with
          | some idx =>
            dsimp only
            intro h'
            rcases keys_setErr h' with hk | hm
            · obtain ⟨r, hr, hi⟩ := aliasToIdxGo_mem ha
              exact Or.inl ⟨r, hr, hk ▸ hi⟩
            · exact Or.inr hm
          | none => exact fun h' => Or.inr h'
        · exact fun h' => Or.inr h'

theorem mem_chunksAux {cap : Nat} :
    ∀ {xs cur : List FixRow} {k : Nat} {c : List FixRow},
      c ∈ chunksAux cap cur xs k → ∀ r ∈ c, r ∈ cur ∨ r ∈ xs := by
  intro xs
  induction xs with
  | nil =>
    intro cur k c hc r hr
    unfold chunksAux at hc
    rw [List.mem_singleton] at hc
    subst hc
    exact Or.inl (List.mem_reverse.mp hr)
  | cons x xs' ih =>
    intro cur k c hc r hr
    match k with
    | 0 =>
      unfold chunksAux at hc
      rcases List.mem_cons.mp hc with rfl | hc'
      · exact Or.inl (List.mem_reverse.mp hr)
      · rcases ih hc' r hr with h₁ | h₂
        · rw [List.mem_singleton] at h₁
          exact Or.inr (h₁ ▸ List.mem_cons_self x xs')
        · exact Or.inr (List.mem_cons_of_mem x h₂)
    | k' + 1 =>
      unfold chunksAux at hc
      rcases ih hc r hr with h₁ | h₂
      · rcases List.mem_cons.mp h₁ with rfl | hcur
        · exact Or.inr (List.mem_cons_self r xs')
        · exact Or.inl hcur
      · exact Or.inr (List.mem_cons_of_mem x h₂)

theorem mem_chunksOf {n : Nat} {l : List FixRow} {c : List FixRow}
    (h : c ∈ chunksOf n l) : ∀ r ∈ c, r ∈ l := by
  intro r hr
  match l with
  | [] => cases h
  | x :: xs =>
    rcases mem_chunksAux h r hr with h₁ | h₂
    · rw [List.mem_singleton] at h₁
      exact h₁ ▸ List.mem_cons_self x xs
    · exact List.mem_cons_of_mem x h₂

theorem mem_processOtherChunks
    {otherResp : Nat → Except String (List (String × List String))} :
    ∀ {chs : List (List FixRow)} {m : ErrMap} {i : Nat} {p : Nat × String},
      p ∈ processOtherChunks otherResp m i chs →
      (∃ c ∈ chs, ∃ r ∈ c, r.idx = p.1) ∨ p ∈ m := by
  intro chs
  induction chs with
  | nil => exact fun h => Or.inr h
  | cons c cs ih =>
    intro m i p h
    unfold processOtherChunks at h
    rcases ih h with ⟨c', hc', hr⟩ | h'
    · exact Or.inl ⟨c', List.mem_cons_of_mem c hc', hr⟩
    · rcases mem_processOtherChunk h' with hx | hm
      · exact Or.inl ⟨c, List.mem_cons_self _ _, hx⟩
      · exact Or.inr hm

theorem getErr_map_strip (e : ErrMap) (k : Nat) :
    getErr (e.map (fun p => (p.1, stripSep p.2))) k = (getErr e k).map stripSep := by
  induction e with
  | nil => rfl
  | cons p rest ih =>
    by_cases hp : p.1 = k <;> simp [getErr, hp, ih]

theorem mem_priceGroups_fold (priceResp : String → Except String (List UserError))
    (priceDf : List FixRow) :
    ∀ (pids : List String) (m : ErrMap) (p : Nat × String),
      p ∈ pids.foldl
        (fun m pid =>
          processPriceGroup m
            ((priceDf.filter (fun r => r.productId = pid)).map FixRow.idx) (priceResp pid)) m →
      p.1 ∈ priceDf.map FixRow.idx ∨ p ∈ m := by
  intro pids
  induction pids with
  | nil => exact fun m p h => Or.inr h
  | cons pid rest ih =>
    intro m p h
    rw [List.foldl_cons] at h
    rcases ih _ p h with hm | h'
    · exact Or.inl hm
    · rcases mem_processPriceGroup h' with hg | hm
      · obtain ⟨r, hr, hk⟩ := List.mem_map.mp hg
        exact Or.inl (List.mem_map.mpr ⟨r, (List.mem_filter.mp hr).1, hk⟩)
      · exact Or.inr hm

/-! ### C10: every error-map key is a submitted row -/

/-- Claim C10.  Whatever the remote responses, every key of the error map
returned by the batch dispatcher is the dataframe index of one of the
submitted rows; the map never names a row that was not part of the
input, so treating absent rows as successes is sound. -/
theorem dispatcher_error_keys_subset (df : List FixRow)
    (priceResp : String → Except String (List UserError))
    (otherResp : Nat → Except String (List (String × List String))) :
    ∀ p ∈ batchProcessMismatches df priceResp otherResp, p.1 ∈ df.map FixRow.idx := by
  intro p hp
  unfold batchProcessMismatches at hp
  dsimp only at hp
  rcases mem_foldl_setErr FixRow.idx (fun _ _ => "Manual review required") _ _ p hp with
    ⟨r, hr, hk⟩ | hp₁
  · exact List.mem_map.mpr ⟨r, (List.mem_filter.mp hr).1, hk⟩
  · obtain ⟨q, hq, hqp⟩ := List.mem_map.mp hp₁
    have hqk : q.1 = p.1 := by rw [← hqp]
    rcases mem_processOtherChunks hq with ⟨c, hc, r, hr, hk⟩ | hq₁
    · have hrdf : r ∈ df := (List.mem_filter.mp (mem_chunksOf hc r hr)).1
      exact List.mem_map.mpr ⟨r, hrdf, hk.trans hqk⟩
    · rcases mem_priceGroups_fold priceResp _ _ _ q hq₁ with hg | habs
      · obtain ⟨r, hr, hk⟩ := List.mem_map.mp hg
        exact List.mem_map.mpr ⟨r, (List.mem_filter.mp hr).1, hk.trans hqk⟩
      · cases habs

theorem dispatcher_error_keys_subset_witness :
    (7, "Manual review required") ∈
      batchProcessMismatches [⟨7, Kind.stale_clearance_tag, "gid-1"⟩]
        (fun _ => Except.ok []) (fun _ => Except.ok []) ∧
    (7 : Nat) ∈ ([⟨7, Kind.stale_clearance_tag, "gid-1"⟩] : List FixRow).map FixRow.idx :=
  ⟨by decide,
   dispatcher_error_keys_subset [⟨7, Kind.stale_clearance_tag, "gid-1"⟩]
     (fun _ => Except.ok []) (fun _ => Except.ok []) (7, "Manual review required") (by decide)⟩

/-! ### C5: the stale-clearance rule, end to end -/

theorem checkStale_eq_filter (shop : List ShopifyRow) (csvSkus : List (Option String)) :
    checkStaleClearance shop csvSkus = shop.filter (staleQualifies (csvKeySet csvSkus)) := by
  unfold checkStaleClearance
  have aux : ∀ (l : List ShopifyRow) (acc : List ShopifyRow),
      l.foldl (fun acc r => if staleQualifies (csvKeySet csvSkus) r then acc ++ [r] else acc)
        acc = acc ++ l.filter (staleQualifies (csvKeySet csvSkus)) := by
    intro l
    induction l with
    | nil => intro acc; simp
    | cons r rest ih =>
      intro acc
      rw [List.foldl_cons]
      by_cases hq : staleQualifies (csvKeySet csvSkus) r = true
      · rw [if_pos hq, ih, List.filter_cons_of_pos hq]
        simp
      · rw [if_neg (by simp [hq]), ih, List.filter_cons_of_neg (by simp [hq])]
  simpa using aux shop []

/-- Claim C5.  The stale scan flags exactly the platform rows with a
`clearance` tag, strictly positive on-hand quantity and a business key
absent from the feed's key set — one record per such row — and the batch
dispatcher maps every submitted `stale_clearance_tag` row to
`"Manual review required"` while issuing no remote mutation for it (it
is in neither the price-class nor the attribute-class submission). -/
theorem stale_clearance_rule (shop : List ShopifyRow) (csvSkus : List (Option String))
    (df : List FixRow) (priceResp : String → Except String (List UserError))
    (otherResp : Nat → Except String (List (String × List String))) :
    (checkStaleClearance shop csvSkus = shop.filter (staleQualifies (csvKeySet csvSkus))) ∧
    (∀ r : ShopifyRow, staleQualifies (csvKeySet csvSkus) r = true ↔
      ("clearance".data ∈ staleTags (rawStr r.tags) ∧
        (∃ q, r.inventoryQuantity = some q ∧ 0 < q) ∧
        normKey r.sku ∉ csvKeySet csvSkus)) ∧
    (∀ r ∈ df, r.field = Kind.stale_clearance_tag →
      getErr (batchProcessMismatches df priceResp otherResp) r.idx =
        some "Manual review required" ∧
      r ∉ df.filter (fun r => isPriceKind r.field) ∧
      r ∉ df.filter
        (fun r => !isPriceKind r.field && decide (r.field ≠ Kind.stale_clearance_tag))) := by
  refine ⟨checkStale_eq_filter shop csvSkus, ?_, ?_⟩
  · intro r
    unfold staleQualifies
    rcases hq : r.inventoryQuantity with _ | q <;>
      simp [Bool.and_eq_true, and_assoc]
  · intro r hr hf
    refine ⟨?_, ?_, ?_⟩
    · unfold batchProcessMismatches
      dsimp only
      exact getErr_foldl_setErr_const FixRow.idx "Manual review required" _ _ r.idx
        (Or.inl ⟨r, List.mem_filter.mpr ⟨hr, by simp [hf]⟩, rfl⟩)
    · intro hmem
      have := (List.mem_filter.mp hmem).2
      rw [hf] at this
      simp [isPriceKind] at this
    · intro hmem
      have := (List.mem_filter.mp hmem).2
      rw [hf] at this
      simp at this

/-! ### C4: row attribution in the price-class batch -/

theorem isPriceKind_ne_stale {k : Kind} (h : isPriceKind k = true) :
    k ≠ Kind.stale_clearance_tag := by
  intro he
  subst he
  exact absurd h (by decide)

theorem productIds_uniform (pid : String) :
    ∀ (l : List FixRow), l ≠ [] → (∀ r ∈ l, r.productId = pid) → productIds l = [pid] := by
  have aux : ∀ (l : List FixRow) (acc : List String),
      (∀ r ∈ l, r.productId = pid) →
      (acc = [pid] ∨ (acc = [] ∧ l ≠ [])) →
      l.foldl (fun acc r => if r.productId ∈ acc then acc else acc ++ [r.productId]) acc =
        [pid] := by
    intro l
    induction l with
    | nil =>
      intro acc _ hacc
      rcases hacc with rfl | ⟨-, habs⟩
      · rfl
      · exact absurd rfl habs
    | cons r rest ih =>
      intro acc hall hacc
      rw [List.foldl_cons]
      have hr := hall r (List.mem_cons_self r rest)
      rcases hacc with rfl | ⟨rfl, -⟩
      · rw [hr, if_pos (List.mem_singleton.mpr rfl)]
        exact ih [pid] (fun x hx => hall x (List.mem_cons_of_mem r hx)) (Or.inl rfl)
      · rw [hr, if_neg (List.not_mem_nil pid)]
        exact ih ([] ++ [pid]) (fun x hx => hall x (List.mem_cons_of_mem r hx))
          (Or.inl (by simp))
  intro l hne hall
  exact aux l [] hall (Or.inr ⟨rfl, hne⟩)

/-- With a single uniform price-class group, the dispatcher reduces to
that group's processing followed by the separator strip. -/
theorem batch_single_price_group (rows : List FixRow) (pid : String)
    (priceResp : String → Except String (List UserError))
    (otherResp : Nat → Except String (List (String × List String)))
    (hne : rows ≠ [])
    (hall : ∀ r ∈ rows, isPriceKind r.field = true ∧ r.productId = pid) :
    batchProcessMismatches rows priceResp otherResp =
      (processPriceGroup [] (rows.map FixRow.idx) (priceResp pid)).map
        (fun p => (p.1, stripSep p.2)) := by
  unfold batchProcessMismatches
  have h₁ : rows.filter (fun r => isPriceKind r.field) = rows :=
    List.filter_eq_self.mpr (fun r hr => (hall r hr).1)
  have h₂ : rows.filter
      (fun r => !isPriceKind r.field && decide (r.field ≠ Kind.stale_clearance_tag)) = [] :=
    List.filter_eq_nil_iff.mpr (fun r hr => by simp [(hall r hr).1])
  have h₃ : rows.filter (fun r => r.field = Kind.stale_clearance_tag) = [] :=
    List.filter_eq_nil_iff.mpr (fun r hr => by
      simp [isPriceKind_ne_stale (hall r hr).1])
  have h₄ : rows.filter (fun r => r.productId = pid) = rows :=
    List.filter_eq_self.mpr (fun r hr => by simp [(hall r hr).2])
  simp only [h₁, h₂, h₃]
  rw [productIds_uniform pid rows hne (fun r hr => (hall r hr).2)]
  simp only [List.foldl_cons, List.foldl_nil]
  rw [h₄]
  rfl

theorem pricePathIndex_cons (i : Int) (rest : List PathElem) :
    pricePathIndex (PathElem.str "variants" :: PathElem.int i :: rest) = some i := rfl

theorem getErr_foldl_append_notmem (s₁ s₂ : String) :
    ∀ (idxs : List Nat) (m : ErrMap) (k : Nat), k ∉ idxs →
      getErr (idxs.foldl (fun m' i => setErr m' i (getErrD m' i "" ++ s₁ ++ s₂)) m) k =
        getErr m k := by
  intro idxs
  induction idxs with
  | nil => intro m k _; rfl
  | cons i rest ih =>
    intro m k hk
    rw [List.mem_cons, not_or] at hk
    rw [List.foldl_cons, ih _ k hk.2]
    exact getErr_setErr_other m i k _ hk.1

theorem getErr_foldl_append_mem (s₁ s₂ : String) :
    ∀ (idxs : List Nat), idxs.Nodup →
      ∀ (m : ErrMap) (k : Nat), k ∈ idxs →
        getErr (idxs.foldl (fun m' i => setErr m' i (getErrD m' i "" ++ s₁ ++ s₂)) m) k =
          some (getErrD m k "" ++ s₁ ++ s₂) := by
  intro idxs
  induction idxs with
  | nil => intro _ m k h; cases h
  | cons i rest ih =>
    intro hnd m k hk
    obtain ⟨hni, hnd'⟩ := List.nodup_cons.mp hnd
    rw [List.foldl_cons]
    rcases List.mem_cons.mp hk with rfl | hk'
    · rw [getErr_foldl_append_notmem s₁ s₂ rest _ k hni]
      show getErr (setErr m k (getErrD m k "" ++ s₁ ++ s₂)) k = _
      exact getErr_setErr_same m k _
    · rw [ih hnd' _ k hk']
      have hki : k ≠ i := fun he => hni (he ▸ hk')
      show some (getErrD (setErr m i (getErrD m i "" ++ s₁ ++ s₂)) k "" ++ s₁ ++ s₂) = _
      unfold getErrD
      rw [getErr_setErr_other m i k _ hki]

/-- Claim C4.  For a price-class group (all rows price-class, one product id),
whatever the other oracle answers: a remote error whose field path names
the in-range list position `i` yields an error map containing exactly
the row submitted at position `i`; an error whose path cannot be parsed
is attributed to every row of the group; a transport failure maps every
row of the group to the transport message.  (Messages are assumed
already free of the trailing separators the dispatcher strips.) -/
theorem price_batch_attribution (rows : List FixRow) (pid : String)
    (otherResp : Nat → Except String (List (String × List String)))
    (hall : ∀ r ∈ rows, isPriceKind r.field = true ∧ r.productId = pid)
    (hne : rows ≠ []) (hnd : (rows.map FixRow.idx).Nodup) :
    (∀ (i : Nat) (hi : i < rows.length) (rest : List PathElem) (msg : String),
      stripSep msg = msg →
      batchProcessMismatches rows
        (fun _ => Except.ok [⟨PathElem.str "variants" :: PathElem.int i :: rest, msg⟩])
        otherResp = [((rows.get ⟨i, hi⟩).idx, msg)]) ∧
    (∀ (fp : List PathElem) (msg : String), pricePathIndex fp = none →
      stripSep (msg ++ " | ") = msg →
      ∀ r ∈ rows,
        getErr (batchProcessMismatches rows (fun _ => Except.ok [⟨fp, msg⟩]) otherResp)
          r.idx = some msg) ∧
    (∀ em : String, stripSep em = em →
      ∀ r ∈ rows,
        getErr (batchProcessMismatches rows (fun _ => Except.error em) otherResp) r.idx =
          some em) := by
  refine ⟨?_, ?_, ?_⟩
  · intro i hi rest msg hmsg
    rw [batch_single_price_group rows pid _ otherResp hne hall]
    unfold processPriceGroup
    dsimp only
    simp only [List.foldl_cons, List.foldl_nil, pricePathIndex_cons]
    rw [dif_pos ⟨by positivity, by simpa using hi⟩]
    have hget : (rows.map FixRow.idx).get
        ⟨((i : Int)).toNat, by simpa using hi⟩ = (rows.get ⟨i, hi⟩).idx := by
      simp
    rw [hget]
    show [((rows.get ⟨i, hi⟩).idx, msg)].map (fun p => (p.1, stripSep p.2)) = _
    rw [List.map_singleton, hmsg]
  · intro fp msg hfp hmsg r hr
    rw [batch_single_price_group rows pid _ otherResp hne hall, getErr_map_strip]
    unfold processPriceGroup
    dsimp only
    simp only [List.foldl_cons, List.foldl_nil, hfp]
    rw [getErr_foldl_append_mem msg " | " (rows.map FixRow.idx) hnd [] r.idx
      (List.mem_map.mpr ⟨r, hr, rfl⟩)]
    show some (stripSep ("" ++ msg ++ " | ")) = some msg
    have hempty : "" ++ msg = msg := by simp
    rw [hempty, hmsg]
  · intro em hem r hr
    rw [batch_single_price_group rows pid _ otherResp hne hall, getErr_map_strip]
    unfold processPriceGroup
    dsimp only
    rw [getErr_foldl_setErr_const (fun i => i) em (rows.map FixRow.idx) [] r.idx
      (Or.inl ⟨r.idx, List.mem_map.mpr ⟨r, hr, rfl⟩, rfl⟩)]
    show some (stripSep em) = some em
    rw [hem]

theorem price_batch_attribution_witness :
    batchProcessMismatches priceBatchRows
      (fun _ => Except.ok
        [⟨[PathElem.str "variants", PathElem.int 1, PathElem.str "price"], "invalid price"⟩])
      (fun _ => Except.ok []) = [(1, "invalid price")] := by
  have h := (price_batch_attribution priceBatchRows "gid-7" (fun _ => Except.ok [])
    (by decide) (by decide) (by decide)).1 1 (by decide) [PathElem.str "price"]
    "invalid price" (by decide)
  exact h

theorem stale_clearance_rule_witness :
    checkStaleClearance [staleShopRow] [some "KEEP-1"] = [staleShopRow] ∧
    getErr (batchProcessMismatches [⟨3, Kind.stale_clearance_tag, "gid-9"⟩]
        (fun _ => Except.ok []) (fun _ => Except.ok [])) 3 =
      some "Manual review required" :=
  ⟨by
    rw [(stale_clearance_rule [staleShopRow] [some "KEEP-1"] []
      (fun _ => Except.ok []) (fun _ => Except.ok [])).1]
    decide,
   ((stale_clearance_rule [staleShopRow] [some "KEEP-1"]
      [⟨3, Kind.stale_clearance_tag, "gid-9"⟩]
      (fun _ => Except.ok []) (fun _ => Except.ok [])).2.2
      ⟨3, Kind.stale_clearance_tag, "gid-9"⟩ (by decide) rfl).1⟩

end Audit
